import Mathlib

/-!
# mediastreamer2: `msvolume.c` and `voip/vp8rtpfmt.h`

A shallow embedding of the volume filter (`src/msvolume.c`) and of the VP8 RTP
payload format interface (`src/voip/vp8rtpfmt.h`), with the properties proved
about them.

Conventions of the embedding.

* `float` values are exact rationals (`ℚ`); `sqrt` is taken as a parameter
  where the C code calls it.
* `int` values are integers (`ℤ`).  C division and remainder on `int` truncate
  towards zero (`Int.tdiv`, `Int.tmod`).  The sample count of a block and the
  countdowns of `sustain_dur` and `ng_noise_dur` are reduced to 32-bit two's
  complement (`c_int`) after every operation, which is what the compiled code
  does when an `int` result leaves the range; the log counters and the sample
  arithmetic of `apply_gain` are kept on `ℤ`.
* Unsigned values are natural numbers reduced modulo `2 ^ w` wherever the C
  operation wraps.
* `static` locals and values read through pointers to other objects are
  explicit arguments and results.
-/

namespace MSVolume

/-! ## Constants of `msvolume.c` -/

/-- The constant `static const float max_e = (32768* 0.7);` -/
def max_e : ℚ := 32768 * 0.7

/-- The constant `static const float coef = 0.2;` -/
def coef : ℚ := 0.2

/-- The constant `static const float vol_upramp = 0.1;` -/
def vol_upramp : ℚ := 0.1

/-- The constant `static const float vol_downramp = 0.4;` -/
def vol_downramp : ℚ := 0.4

/-- The constant `static const float en_weight=4.0;` -/
def en_weight : ℚ := 4.0

/-- The constant `static const float noise_thres=0.1;` -/
def noise_thres : ℚ := 0.1

/-! ## Data model -/

/-- The payload of an `mblk_t` between `b_rptr` and `b_wptr`, as the sequence
of 16-bit samples the filter reads there (whole samples, two bytes each). -/
abbrev mblk_t := List Int

/-- An integer result stored in a 32-bit `int`: reduced to two's complement,
in `[-2^31, 2^31)`. -/
def c_int (x : Int) : Int := (x + 2147483648) % 4294967296 - 2147483648

/-- Byte count `b_wptr - b_rptr` of a block. -/
def msg_bytes (m : mblk_t) : Int := 2 * (m.length : Int)

/-- Sample count `(om->b_wptr - om->b_rptr) / 2`. -/
def msg_nsamples (m : mblk_t) : Int := c_int (Int.tdiv (msg_bytes m) 2)

/-- The `int` expression `(nsamples * 1000) / v->sample_rate`: the duration of
a block in ms, as the code computes it. -/
def block_duration_ms (nsamples sample_rate : Int) : Int :=
  c_int (Int.tdiv (c_int (nsamples * 1000)) sample_rate)

/-- Embedding of `struct Volume`.  `peer` is the `MSFilter *peer` pointer (`none` is `NULL`);
`buffer` is the content of the `MSBufferizer`.  The `speex_pp` member only
exists under `HAVE_SPEEXDSP` and is used by no function modelled here. -/
structure Volume where
  energy : ℚ
  level_pk : ℚ
  gain : ℚ
  static_gain : ℚ
  dc_offset : Int
  vol_upramp : ℚ
  vol_downramp : ℚ
  ea_thres : ℚ
  force : ℚ
  target_gain : ℚ
  sustain_time : Int
  sustain_dur : Int
  peer : Option Nat
  sample_rate : Int
  nsamples : Int
  ng_cut_time : Int
  ng_noise_dur : Int
  ng_threshold : ℚ
  ng_floorgain : ℚ
  ng_gain : ℚ
  buffer : List Int
  ea_active : Bool
  agc_enabled : Bool
  noise_gate_enabled : Bool

/-- The state `volume_init` stores in `f->data`. -/
def volume_init : Volume :=
  { energy := 0
    level_pk := 0
    gain := 1
    static_gain := 1
    dc_offset := 0
    vol_upramp := vol_upramp
    vol_downramp := vol_downramp
    ea_thres := noise_thres
    force := en_weight
    target_gain := 1
    sustain_time := 200
    sustain_dur := 0
    peer := none
    sample_rate := 8000
    nsamples := 80
    ng_cut_time := 400
    ng_noise_dur := 0
    ng_threshold := noise_thres
    ng_floorgain := 0
    ng_gain := 1
    buffer := []
    ea_active := false
    agc_enabled := false
    noise_gate_enabled := false }

/-- The state of `volume_init` after `volume_set_peer`: the echo limiter is
enabled. -/
def volume_init_peer : Volume := { volume_init with peer := some 0 }

/-- The state of `volume_init` with a peer set and the AGC enabled. -/
def volume_init_peer_agc : Volume := { volume_init with peer := some 0, agc_enabled := true }

/-- What a processing function with a `static int counter` leaves behind: its
return value, the `Volume` it wrote, the new value of its counter, and the
values of the `ms_message` line when one is emitted. -/
structure Outcome (α : Type) where
  ret : α
  vol : Volume
  counter : Int
  log : Option (List ℚ)

/-- The value `(float)` of a `bool_t` or of a pointer test, for the log lines. -/
def flag_value (b : Bool) : ℚ := if b then 1 else 0

/-! ## Processing functions -/

/-- Embedding of `volume_agc_process` (the built-in branch, `#else` of `#if 0`). -/
def volume_agc_process (v : Volume) (_om : mblk_t) (counter : Int) : Outcome ℚ :=
  let gain_reduct : ℚ := 1 + (v.level_pk * 2 * v.static_gain)
  let counter1 := counter + 1
  { ret := gain_reduct
    vol := v
    counter := counter1
    log := if Int.tmod counter1 20 = 0
      then some [v.level_pk, gain_reduct, v.gain, v.ng_gain] else none }

/-- Embedding of `compute_gain`.  The quotient is the one of `ℚ`, so the value
stands for the one the code computes only where `1 + energy * weight` is not
zero (there the `float` division gives an infinity). -/
def compute_gain (v : Volume) (energy weight : ℚ) : ℚ :=
  let ret := v.static_gain / (1 + (energy * weight))
  if ret < v.ng_floorgain then v.ng_floorgain else ret

/-- Embedding of `volume_echo_avoider_process`; `peer_e` is the value read from
`((Volume *)(v->peer->data))->energy`. -/
def volume_echo_avoider_process (v : Volume) (peer_e : ℚ) (om : mblk_t)
    (counter : Int) : Outcome ℚ :=
  let nsamples := msg_nsamples om
  let v1 : Volume :=
    if peer_e > v.ea_thres then
      { v with target_gain := compute_gain v peer_e v.force
               sustain_dur := v.sustain_time }
    else if v.sustain_dur > 0 then
      { v with sustain_dur :=
          c_int (v.sustain_dur - block_duration_ms nsamples v.sample_rate) }
    else
      { v with target_gain := v.static_gain }
  let counter1 := counter + 1
  { ret := v1.target_gain
    vol := v1
    counter := counter1
    log := if Int.tmod counter1 20 = 0
      then some [flag_value v1.ea_active, peer_e, v1.target_gain, v1.gain] else none }

/-- Embedding of `volume_noise_gate_process` (returns `void`). -/
def volume_noise_gate_process (v : Volume) (energy : ℚ) (om : mblk_t)
    (counter : Int) : Outcome Unit :=
  let nsamples := msg_nsamples om
  let r : ℚ × Volume :=
    if energy > v.ng_threshold then
      (v.static_gain, { v with ng_noise_dur := v.ng_cut_time })
    else if v.ng_noise_dur > 0 then
      (v.static_gain,
        { v with ng_noise_dur :=
            c_int (v.ng_noise_dur - block_duration_ms nsamples v.sample_rate) })
    else
      (v.ng_floorgain, v)
  let tgain := r.1
  let v1 := r.2
  let v2 : Volume := { v1 with ng_gain := v1.ng_gain * 0.75 + tgain * 0.25 }
  let counter1 := counter + 1
  { ret := ()
    vol := v2
    counter := counter1
    log := if Int.tmod counter1 10 = 0
      then some [flag_value v2.peer.isSome, energy, v2.energy, tgain, v2.ng_gain] else none }

/-! ## Control methods -/

/-- Embedding of `volume_set_ea_threshold`: the `int` returned and the state left. -/
def volume_set_ea_threshold (v : Volume) (val : ℚ) : Int × Volume :=
  if val < 0 ∨ val > 1 then (-1, v)
  else (0, { v with ea_thres := val })

/-- Embedding of `volume_set_ea_speed`: the `int` returned and the state left. -/
def volume_set_ea_speed (v : Volume) (val : ℚ) : Int × Volume :=
  if val < 0 ∨ val > 0.5 then (-1, v)
  else (0, { v with vol_upramp := val })

/-! ## Energy measurement and gain application -/

/-- Embedding of `saturate`. -/
def saturate (val : Int) : Int :=
  if val > 32767 then 32767 else if val < -32767 then -32767 else val

/-- Conversion of a `float` to an integer type: truncation towards zero. -/
def float_to_int (q : ℚ) : Int := Int.tdiv q.num (q.den : Int)

/-- One turn of the loop of `update_energy` on the locals `(en, lp, pk)`. -/
def update_energy_step (acc : ℚ × Int × Int) (s : Int) : ℚ × Int × Int :=
  let en := acc.1 + (s : ℚ) * (s : ℚ)
  let lp := Int.tdiv (|s| + acc.2.1 * 15) 16
  let pk := if lp > acc.2.2 then lp else acc.2.2
  (en, lp, pk)

/-- Embedding of `update_energy`; `sqrt` stands for the C library function. -/
def update_energy (sqrt : ℚ → ℚ) (signal : List Int) (numsamples : Int) (v : Volume) :
    Volume :=
  let acc := (signal.take numsamples.toNat).foldl update_energy_step (0, 0, 0)
  let en : ℚ := (sqrt (acc.1 / (numsamples : ℚ)) + 1) / max_e
  { v with energy := (en * coef) + v.energy * (1 - coef)
           level_pk := en }

/-- The gain ramp at the head of `apply_gain`: the new value of `v->gain`. -/
def ramp_gain (v : Volume) (tgain : ℚ) : ℚ :=
  if v.gain < tgain then
    let g := v.gain * (1 + v.vol_upramp)
    if g > tgain then tgain else g
  else if v.gain > tgain then
    let g := v.gain * (1 - v.vol_downramp)
    if g < tgain then tgain else g
  else v.gain

/-- Embedding of `apply_gain`: the state left and the samples written back into the block. -/
def apply_gain (v : Volume) (m : mblk_t) (tgain : ℚ) : Volume × mblk_t :=
  let gain1 := ramp_gain v tgain
  let ng_gain1 := if !v.noise_gate_enabled then v.static_gain else v.ng_gain
  let intgain : Int := float_to_int ((if gain1 < ng_gain1 then gain1 else ng_gain1) * 4096)
  let dc_offset : Int := m.foldl (fun a s => a + s) 0
  let out := m.map (fun s => saturate (Int.tdiv ((s - v.dc_offset) * intgain) 4096))
  ({ v with gain := gain1
            ng_gain := ng_gain1
            dc_offset :=
              Int.tdiv (v.dc_offset * 7 + Int.tdiv (dc_offset * 2) (msg_bytes m)) 8 },
   out)

/-- The `static int counter` of each of the three processing functions. -/
structure Counters where
  agc : Int
  echo : Int
  noise_gate : Int

/-- One turn of the `while` loop of the light branch of `volume_process`
(taken when `agc_enabled` is false) on the block `m`: the state left, the block put on the
output queue and the counters.  `peer_e` is the energy of the peer filter. -/
def volume_process_light_block (sqrt : ℚ → ℚ) (v : Volume) (peer_e : ℚ) (m : mblk_t)
    (c : Counters) : Volume × mblk_t × Counters :=
  let v1 := update_energy sqrt m (msg_nsamples m) v
  let e : Outcome ℚ :=
    if v1.peer.isSome then volume_echo_avoider_process v1 peer_e m c.echo
    else { ret := v1.static_gain, vol := v1, counter := c.echo, log := none }
  let target_gain := e.ret
  let n : Outcome Unit :=
    if e.vol.noise_gate_enabled then
      volume_noise_gate_process e.vol e.vol.level_pk m c.noise_gate
    else { ret := (), vol := e.vol, counter := c.noise_gate, log := none }
  let r := apply_gain n.vol m target_gain
  (r.1, r.2, { c with echo := e.counter, noise_gate := n.counter })

/-- One turn of the `while` loop of the AGC branch of `volume_process`
(`agc_enabled` true) on the chunk `om` read from the bufferizer: the energy is
measured on `v->nsamples` samples, the target of the echo limiter is divided by
the result of `volume_agc_process`, and `apply_gain` gets the quotient.  The
quotient is the one of `ℚ`, so it stands for the code only where the divisor
is not zero. -/
def volume_process_agc_block (sqrt : ℚ → ℚ) (v : Volume) (peer_e : ℚ) (om : mblk_t)
    (c : Counters) : Volume × mblk_t × Counters :=
  let v1 := update_energy sqrt om v.nsamples v
  let e : Outcome ℚ :=
    if v1.peer.isSome then volume_echo_avoider_process v1 peer_e om c.echo
    else { ret := v1.static_gain, vol := v1, counter := c.echo, log := none }
  let a := volume_agc_process e.vol om c.agc
  let target_gain := e.ret / a.ret
  let n : Outcome Unit :=
    if a.vol.noise_gate_enabled then
      volume_noise_gate_process a.vol a.vol.level_pk om c.noise_gate
    else { ret := (), vol := a.vol, counter := c.noise_gate, log := none }
  let r := apply_gain n.vol om target_gain
  (r.1, r.2, { agc := a.counter, echo := e.counter, noise_gate := n.counter })

/-- One turn of the loop of `volume_process` on a block: the AGC branch when
`agc_enabled` is set (the block is then the chunk read from the bufferizer),
the light branch otherwise. -/
def volume_process_block (sqrt : ℚ → ℚ) (v : Volume) (peer_e : ℚ) (m : mblk_t)
    (c : Counters) : Volume × mblk_t × Counters :=
  if v.agc_enabled then volume_process_agc_block sqrt v peer_e m c
  else volume_process_light_block sqrt v peer_e m c

/-- Successive calls of `volume_echo_avoider_process`, one per element of
`calls` (peer energy and block), each on the state the previous one left. -/
def echo_avoider_run (v : Volume) (counter : Int) : List (ℚ × mblk_t) → Volume
  | [] => v
  | (peer_e, om) :: rest =>
    let r := volume_echo_avoider_process v peer_e om counter
    echo_avoider_run r.vol r.counter rest

end MSVolume

namespace Vp8RtpFmt

/-! ## Data model of `vp8rtpfmt.h` -/

/-- Embedding of `enum Vp8RtpFmtErrorCode`. -/
inductive Vp8RtpFmtErrorCode where
  | Vp8RtpFmtOk
  | Vp8RtpFmtInvalidPayloadDescriptor
  | Vp8RtpFmtIncompleteFrame
  | Vp8RtpFmtIncompletePartition
  | Vp8RtpFmtInvalidFrame
  | Vp8RtpFmtInvalidPartition

/-- The integer value of each enumerator. -/
def Vp8RtpFmtErrorCode.value : Vp8RtpFmtErrorCode → Int
  | .Vp8RtpFmtOk => 0
  | .Vp8RtpFmtInvalidPayloadDescriptor => -1
  | .Vp8RtpFmtIncompleteFrame => -2
  | .Vp8RtpFmtIncompletePartition => -3
  | .Vp8RtpFmtInvalidFrame => -4
  | .Vp8RtpFmtInvalidPartition => -5

/-- Embedding of `struct Vp8RtpFmtPayloadDescriptor`, members in the order of the header. -/
structure Vp8RtpFmtPayloadDescriptor where
  pictureid : Nat
  pid : Nat
  tl0picidx : Nat
  tid : Nat
  keyidx : Nat
  extended_control_bits_present : Bool
  non_reference_frame : Bool
  start_of_partition : Bool
  pictureid_present : Bool
  tl0picidx_present : Bool
  tid_present : Bool
  keyidx_present : Bool
  layer_sync : Bool

/-- The members of `struct Vp8RtpFmtUnpackerCtx` that the sequence number
tracker and the timestamp test use; `filter`, `frames_list` and `output_queue`
are not touched by `vp8rtpfmt_unpacker_calc_extended_cseq`. -/
structure Vp8RtpFmtUnpackerCtx where
  last_ts : Nat
  ref_cseq : Nat
  initialized_last_ts : Bool
  initialized_ref_cseq : Bool

/-! ## Payload descriptor codec

The header declares the data model only; the codec below follows sections 4.1
and 6 of the specification. -/

/-- A flag as the bit it occupies. -/
def flag_bit (b : Bool) : Nat := if b then 1 else 0

/-- Modelled from the spec: the picture id bytes of `encode`, whose body is not
in the sources.  One byte when the value fits seven bits, otherwise two bytes
with the high bit of the first one set (section 4.1: the high bit of the first
byte signals the 2-byte form). -/
def encode_pictureid (p : Nat) : List Nat :=
  if p < 128 then [p] else [128 + p / 256 % 128, p % 256]

/-- Modelled from the spec: `encode` of section 4.1, whose body is not in the
sources.  Byte 0 is `X R N S PID(4)` with `R = 0`; when `X` is set byte 1 is
`I L T K` and four reserved zero bits, followed by the picture id, `tl0picidx`
and the `TID(2) Y(1) KEYIDX(5)` byte, each only when its flag is set (section
6).  No extension byte is emitted when `extended_control_bits_present` is
clear. -/
def encode (d : Vp8RtpFmtPayloadDescriptor) : List Nat :=
  let b0 := 128 * flag_bit d.extended_control_bits_present
    + 32 * flag_bit d.non_reference_frame
    + 16 * flag_bit d.start_of_partition
    + d.pid % 16
  if d.extended_control_bits_present then
    let b1 := 128 * flag_bit d.pictureid_present
      + 64 * flag_bit d.tl0picidx_present
      + 32 * flag_bit d.tid_present
      + 16 * flag_bit d.keyidx_present
    [b0, b1]
      ++ (if d.pictureid_present then encode_pictureid d.pictureid else [])
      ++ (if d.tl0picidx_present then [d.tl0picidx % 256] else [])
      ++ (if d.tid_present || d.keyidx_present then
            [64 * (if d.tid_present then d.tid % 4 else 0)
              + 32 * flag_bit (d.tid_present && d.layer_sync)
              + (if d.keyidx_present then d.keyidx % 32 else 0)]
          else [])
  else [b0]

/-- The only way `decode` looks at a payload: the byte at an offset, or the
error when the offset is not inside the buffer. -/
abbrev Reader := Nat → Except Vp8RtpFmtErrorCode Nat

/-- Modelled from the spec: the byte access of `decode`, whose body is not in
the sources (section 8: no read outside the buffer).  Bounds-checked read of
the payload of `len` bytes that starts at offset 0 of `mem`.  `mem` is defined at every offset: what lies at offsets `≥ len` is
whatever follows the buffer in memory. -/
def read_byte (mem : Nat → Nat) (len : Nat) : Reader := fun off =>
  if off < len then .ok (mem off % 256)
  else .error .Vp8RtpFmtInvalidPayloadDescriptor

/-- Modelled from the spec: the picture id step of `decode` (body not in the
sources): nothing when `I` is clear, else one byte, or two when the high bit
of the first is set.  Returns the value and the next offset. -/
def decode_pictureid (rd : Reader) (present : Bool) (off : Nat) :
    Except Vp8RtpFmtErrorCode (Nat × Nat) :=
  if present then
    match rd off with
    | .error e => .error e
    | .ok p0 =>
      if p0 / 128 % 2 = 1 then
        match rd (off + 1) with
        | .error e => .error e
        | .ok p1 => .ok (p0 % 128 * 256 + p1, off + 2)
      else .ok (p0, off + 1)
  else .ok (0, off)

/-- Modelled from the spec: the `tl0picidx` step of `decode` (body not in the
sources): one byte when `L` is set. -/
def decode_tl0picidx (rd : Reader) (present : Bool) (off : Nat) :
    Except Vp8RtpFmtErrorCode (Nat × Nat) :=
  if present then
    match rd off with
    | .error e => .error e
    | .ok b => .ok (b, off + 1)
  else .ok (0, off)

/-- Modelled from the spec: the `TID(2) Y(1) KEYIDX(5)` step of `decode` (body
not in the sources): one byte when `T` or `K` is set.  Returns `tid`,
`layer_sync`, `keyidx` and the next offset. -/
def decode_tid_keyidx (rd : Reader) (t k : Bool) (off : Nat) :
    Except Vp8RtpFmtErrorCode (Nat × Bool × Nat × Nat) :=
  if t || k then
    match rd off with
    | .error e => .error e
    | .ok b =>
      .ok (if t then b / 64 % 4 else 0,
           t && decide (b / 32 % 2 = 1),
           if k then b % 32 else 0,
           off + 1)
  else .ok (0, false, 0, off)

/-- Modelled from the spec: `decode` of section 4.1 over a reader (body not in
the sources).  Returns the descriptor and the number of bytes consumed, or
`Vp8RtpFmtInvalidPayloadDescriptor` when a byte is missing or, in strict mode,
when a reserved bit is set. -/
def decode_with (strict : Bool) (rd : Reader) :
    Except Vp8RtpFmtErrorCode (Vp8RtpFmtPayloadDescriptor × Nat) :=
  match rd 0 with
  | .error e => .error e
  | .ok b0 =>
    if strict && decide (b0 / 64 % 2 = 1) then .error .Vp8RtpFmtInvalidPayloadDescriptor
    else
      let n := decide (b0 / 32 % 2 = 1)
      let s := decide (b0 / 16 % 2 = 1)
      let pid := b0 % 16
      if b0 / 128 % 2 = 1 then
        match rd 1 with
        | .error e => .error e
        | .ok b1 =>
          if strict && decide (b1 % 16 ≠ 0) then .error .Vp8RtpFmtInvalidPayloadDescriptor
          else
            let i := decide (b1 / 128 % 2 = 1)
            let l := decide (b1 / 64 % 2 = 1)
            let t := decide (b1 / 32 % 2 = 1)
            let k := decide (b1 / 16 % 2 = 1)
            match decode_pictureid rd i 2 with
            | .error e => .error e
            | .ok (pictureid, off1) =>
              match decode_tl0picidx rd l off1 with
              | .error e => .error e
              | .ok (tl0picidx, off2) =>
                match decode_tid_keyidx rd t k off2 with
                | .error e => .error e
                | .ok (tid, y, keyidx, off3) =>
                  .ok ({ pictureid := pictureid
                         pid := pid
                         tl0picidx := tl0picidx
                         tid := tid
                         keyidx := keyidx
                         extended_control_bits_present := true
                         non_reference_frame := n
                         start_of_partition := s
                         pictureid_present := i
                         tl0picidx_present := l
                         tid_present := t
                         keyidx_present := k
                         layer_sync := y }, off3)
      else
        .ok ({ pictureid := 0
               pid := pid
               tl0picidx := 0
               tid := 0
               keyidx := 0
               extended_control_bits_present := false
               non_reference_frame := n
               start_of_partition := s
               pictureid_present := false
               tl0picidx_present := false
               tid_present := false
               keyidx_present := false
               layer_sync := false }, 1)

/-- Modelled from the spec: `decode` on the payload of `len` bytes at `mem`. -/
def decode (strict : Bool) (mem : Nat → Nat) (len : Nat) :
    Except Vp8RtpFmtErrorCode (Vp8RtpFmtPayloadDescriptor × Nat) :=
  decode_with strict (read_byte mem len)

/-- A byte sequence laid out in memory from offset 0 (zero elsewhere). -/
def mem_of (bytes : List Nat) : Nat → Nat := fun i => bytes.getD i 0

/-- Modelled from the spec: `decode` applied to a byte sequence. -/
def decode_bytes (strict : Bool) (bytes : List Nat) :
    Except Vp8RtpFmtErrorCode (Vp8RtpFmtPayloadDescriptor × Nat) :=
  decode strict (mem_of bytes) bytes.length

/-- Modelled from the spec: the length implied by the flags (section 4.1), for
the `decode` whose body is not in the sources.  It is the descriptor length
that the flag bits present in the payload imply: one
byte, plus the extension byte when `X` is set, plus one or two picture id bytes
(`I`, and the high bit of the first of them), one byte for `L` and one for
`T` or `K`.  A flag byte that the payload is too short to hold counts as one
more byte needed. -/
def implied_length (mem : Nat → Nat) (len : Nat) : Nat :=
  if len < 1 then 1
  else if mem 0 % 256 / 128 % 2 = 1 then
    if len < 2 then 2
    else
      let b1 := mem 1 % 256
      2 + (if b1 / 128 % 2 = 1 then
             (if len < 3 then 1 else if mem 2 % 256 / 128 % 2 = 1 then 2 else 1)
           else 0)
        + (if b1 / 64 % 2 = 1 then 1 else 0)
        + (if b1 / 32 % 2 = 1 ∨ b1 / 16 % 2 = 1 then 1 else 0)
  else 1

/-- Bytes the picture id step needs at offset `off`: none when `I` is clear,
else one, or two when the first byte is inside the buffer and has its high bit
set. -/
def pictureid_need (mem : Nat → Nat) (len off : Nat) (i : Bool) : Nat :=
  if i = true then
    (if len ≤ off then 1 else if mem off % 256 / 128 % 2 = 1 then 2 else 1)
  else 0

/-- The well-formedness the round-trip law is stated for: presence flags only
under `extended_control_bits_present`, every field within its wire width. -/
def WellFormed (d : Vp8RtpFmtPayloadDescriptor) : Prop :=
  (d.pictureid_present = true → d.extended_control_bits_present = true) ∧
  (d.tl0picidx_present = true → d.extended_control_bits_present = true) ∧
  (d.tid_present = true → d.extended_control_bits_present = true) ∧
  (d.keyidx_present = true → d.extended_control_bits_present = true) ∧
  d.pictureid < 32768 ∧ d.pid < 16 ∧ d.tl0picidx < 256 ∧ d.tid < 4 ∧ d.keyidx < 32

/-- Fields that are not on the wire carry no value: a field whose presence
flag is clear is zero, and `layer_sync` is set only together with
`tid_present`. -/
def AbsentFieldsZero (d : Vp8RtpFmtPayloadDescriptor) : Prop :=
  (d.pictureid_present = false → d.pictureid = 0) ∧
  (d.tl0picidx_present = false → d.tl0picidx = 0) ∧
  (d.tid_present = false → d.tid = 0 ∧ d.layer_sync = false) ∧
  (d.keyidx_present = false → d.keyidx = 0)

/-! ## Extended sequence number tracker -/

/-- The state `vp8rtpfmt_unpacker_init` leaves (zero-initialised). -/
def vp8rtpfmt_unpacker_init : Vp8RtpFmtUnpackerCtx :=
  { last_ts := 0, ref_cseq := 0, initialized_last_ts := false, initialized_ref_cseq := false }

/-- A difference of sequence numbers read as a signed 16-bit value, in
`[-32768, 32767]`. -/
def signed16 (x : Int) : Int :=
  let r := x % 65536
  if r ≥ 32768 then r - 65536 else r

/-- Modelled from the spec: `vp8rtpfmt_unpacker_calc_extended_cseq`, declared in
the header, body not in the sources (section 4.2).  First call: the reference
becomes the raw value, which is returned.  Later calls: the signed 16-bit
difference between the raw value and the low 16 bits of the last returned value
is added to the last returned value, in `uint32_t` arithmetic.  Returns the
extended value and the context left.  The declared return type carries no
rejection, and a signed 16-bit difference is never outside `[-32768, 32767]`,
so every raw value gets an extended value. -/
def vp8rtpfmt_unpacker_calc_extended_cseq (ctx : Vp8RtpFmtUnpackerCtx) (cseq : Nat) :
    Nat × Vp8RtpFmtUnpackerCtx :=
  let raw := cseq % 65536
  if ctx.initialized_ref_cseq then
    let delta := signed16 ((raw : Int) - ((ctx.ref_cseq % 65536 : Nat) : Int))
    let ext := (((ctx.ref_cseq : Int) + delta) % 4294967296).toNat
    (ext, { ctx with ref_cseq := ext })
  else
    (raw, { ctx with ref_cseq := raw, initialized_ref_cseq := true })

/-- Successive calls of the tracker on the raw values of `raws`: the values
returned, in order, and the context left. -/
def calc_extended_cseq_run (ctx : Vp8RtpFmtUnpackerCtx) :
    List Nat → List Nat × Vp8RtpFmtUnpackerCtx
  | [] => ([], ctx)
  | c :: cs =>
    let r := vp8rtpfmt_unpacker_calc_extended_cseq ctx c
    let rs := calc_extended_cseq_run r.2 cs
    (r.1 :: rs.1, rs.2)

/-- A run of raw 16-bit sequence numbers in which each value is the previous
one plus one modulo 65536. -/
def ConsecutiveRun (raws : List Nat) : Prop :=
  (∀ r ∈ raws, r < 65536) ∧ List.Chain' (fun a b => b = (a + 1) % 65536) raws

/-- The run of `n` consecutive raw values that starts at `start`. -/
def consecutive_from (start n : Nat) : List Nat :=
  (List.range n).map (fun k => (start + k) % 65536)

/-- A descriptor with no flag set and a non-zero picture id. -/
def d_absent_pictureid : Vp8RtpFmtPayloadDescriptor :=
  { pictureid := 1
    pid := 0
    tl0picidx := 0
    tid := 0
    keyidx := 0
    extended_control_bits_present := false
    non_reference_frame := false
    start_of_partition := false
    pictureid_present := false
    tl0picidx_present := false
    tid_present := false
    keyidx_present := false
    layer_sync := false }

/-- A descriptor with no flag set except `layer_sync`. -/
def d_absent_layer_sync : Vp8RtpFmtPayloadDescriptor :=
  { pictureid := 0
    pid := 0
    tl0picidx := 0
    tid := 0
    keyidx := 0
    extended_control_bits_present := false
    non_reference_frame := false
    start_of_partition := false
    pictureid_present := false
    tl0picidx_present := false
    tid_present := false
    keyidx_present := false
    layer_sync := true }

/-- A descriptor with every field present and a two-byte picture id. -/
def d_full : Vp8RtpFmtPayloadDescriptor :=
  { pictureid := 300
    pid := 3
    tl0picidx := 7
    tid := 2
    keyidx := 9
    extended_control_bits_present := true
    non_reference_frame := true
    start_of_partition := false
    pictureid_present := true
    tl0picidx_present := true
    tid_present := true
    keyidx_present := true
    layer_sync := true }

instance (d : Vp8RtpFmtPayloadDescriptor) : Decidable (WellFormed d) := by
  unfold WellFormed
  infer_instance

instance (d : Vp8RtpFmtPayloadDescriptor) : Decidable (AbsentFieldsZero d) := by
  unfold AbsentFieldsZero
  infer_instance

end Vp8RtpFmt

/-! # Properties -/

namespace MSVolume

/-! ## Control methods -/

/-- C4: `volume_set_ea_threshold` returns -1 and leaves the state unchanged
exactly when the value is below 0 or above 1, and otherwise returns 0 having
set only `ea_thres`; `volume_set_ea_speed` does the same with the range
`[0, 0.5]` and the field `vol_upramp`, and never changes `vol_downramp`. -/
theorem ea_setters_reject_atomically (v : Volume) (val : ℚ) :
    ((volume_set_ea_threshold v val).1 = -1 ↔ (val < 0 ∨ 1 < val)) ∧
    ((val < 0 ∨ 1 < val) → volume_set_ea_threshold v val = (-1, v)) ∧
    (¬ (val < 0 ∨ 1 < val) →
      volume_set_ea_threshold v val = (0, { v with ea_thres := val })) ∧
    ((volume_set_ea_speed v val).1 = -1 ↔ (val < 0 ∨ 1 / 2 < val)) ∧
    ((val < 0 ∨ 1 / 2 < val) → volume_set_ea_speed v val = (-1, v)) ∧
    (¬ (val < 0 ∨ 1 / 2 < val) →
      volume_set_ea_speed v val = (0, { v with vol_upramp := val })) ∧
    (volume_set_ea_speed v val).2.vol_downramp = v.vol_downramp := by
  have half : (0.5 : ℚ) = 1 / 2 := by norm_num
  have t1 : (val < 0 ∨ 1 < val) → volume_set_ea_threshold v val = (-1, v) :=
    fun h => if_pos h
  have t0 : ¬ (val < 0 ∨ 1 < val) →
      volume_set_ea_threshold v val = (0, { v with ea_thres := val }) :=
    fun h => if_neg h
  have s1 : (val < 0 ∨ 1 / 2 < val) → volume_set_ea_speed v val = (-1, v) := by
    intro h
    rw [← half] at h
    exact if_pos h
  have s0 : ¬ (val < 0 ∨ 1 / 2 < val) →
      volume_set_ea_speed v val = (0, { v with vol_upramp := val }) := by
    intro h
    rw [← half] at h
    exact if_neg h
  refine ⟨?_, t1, t0, ?_, s1, s0, ?_⟩
  · by_cases h : val < 0 ∨ 1 < val
    · simp only [t1 h, h]
    · simp only [t0 h, h]
      decide
  · by_cases h : val < 0 ∨ 1 / 2 < val
    · simp only [s1 h, h]
    · simp only [s0 h, h]
      decide
  · by_cases h : val < 0 ∨ 1 / 2 < val
    · rw [s1 h]
    · rw [s0 h]

/-- The setters at concrete values: 3/2 is rejected by both, 1/4 is accepted by
both. -/
theorem ea_setters_reject_atomically_witness :
    volume_set_ea_threshold volume_init (3 / 2) = (-1, volume_init) ∧
    volume_set_ea_threshold volume_init (1 / 4)
      = (0, { volume_init with ea_thres := 1 / 4 }) ∧
    volume_set_ea_speed volume_init (3 / 2) = (-1, volume_init) ∧
    volume_set_ea_speed volume_init (1 / 4)
      = (0, { volume_init with vol_upramp := 1 / 4 }) :=
  ⟨(ea_setters_reject_atomically volume_init (3 / 2)).2.1 (Or.inr (by norm_num)),
   (ea_setters_reject_atomically volume_init (1 / 4)).2.2.1 (by norm_num),
   (ea_setters_reject_atomically volume_init (3 / 2)).2.2.2.2.1 (Or.inr (by norm_num)),
   (ea_setters_reject_atomically volume_init (1 / 4)).2.2.2.2.2.1 (by norm_num)⟩

/-! ## The static counters -/

/-- C5: the `static int counter` of `volume_agc_process`,
`volume_echo_avoider_process` and `volume_noise_gate_process` only throttles
logging: for any two initial counter values each function returns the same
value and leaves the same `Volume`, and a log line, when emitted, carries the
same values. -/
theorem static_counter_only_throttles_logging (v : Volume) (om : mblk_t)
    (peer_e energy : ℚ) (c1 c2 : Int) :
    ((volume_agc_process v om c1).ret = (volume_agc_process v om c2).ret ∧
     (volume_agc_process v om c1).vol = (volume_agc_process v om c2).vol) ∧
    ((volume_echo_avoider_process v peer_e om c1).ret
        = (volume_echo_avoider_process v peer_e om c2).ret ∧
     (volume_echo_avoider_process v peer_e om c1).vol
        = (volume_echo_avoider_process v peer_e om c2).vol) ∧
    ((volume_noise_gate_process v energy om c1).ret
        = (volume_noise_gate_process v energy om c2).ret ∧
     (volume_noise_gate_process v energy om c1).vol
        = (volume_noise_gate_process v energy om c2).vol) ∧
    (∀ l1 l2, (volume_agc_process v om c1).log = some l1 →
      (volume_agc_process v om c2).log = some l2 → l1 = l2) ∧
    (∀ l1 l2, (volume_echo_avoider_process v peer_e om c1).log = some l1 →
      (volume_echo_avoider_process v peer_e om c2).log = some l2 → l1 = l2) ∧
    (∀ l1 l2, (volume_noise_gate_process v energy om c1).log = some l1 →
      (volume_noise_gate_process v energy om c2).log = some l2 → l1 = l2) := by
  refine ⟨⟨rfl, rfl⟩, ⟨rfl, rfl⟩, ⟨rfl, rfl⟩, ?_, ?_, ?_⟩
  · intro l1 l2 h1 h2
    simp only [volume_agc_process] at h1 h2
    split at h1 <;> split at h2 <;> simp_all
  · intro l1 l2 h1 h2
    simp only [volume_echo_avoider_process] at h1 h2
    split at h1 <;> split at h2 <;> simp_all
  · intro l1 l2 h1 h2
    simp only [volume_noise_gate_process] at h1 h2
    split at h1 <;> split at h2 <;> simp_all

/-! ## Sustain of the echo limiter -/

/-- A value inside the `int` range is stored unchanged. -/
lemma c_int_of_range (x : Int) (h1 : -2147483648 ≤ x) (h2 : x ≤ 2147483647) :
    c_int x = x := by
  unfold c_int
  omega

/-- A stored `int` is inside the `int` range. -/
lemma c_int_range (x : Int) : -2147483648 ≤ c_int x ∧ c_int x ≤ 2147483647 := by
  unfold c_int
  omega

/-- Where `nsamples * 1000` is inside the `int` range and the sample rate is
not negative, the duration the code computes is the quotient on `ℤ`. -/
lemma block_duration_ms_of_range (n r : Int) (h0 : 0 ≤ n * 1000)
    (h1 : n * 1000 ≤ 2147483647) (hr : 0 ≤ r) :
    block_duration_ms n r = Int.tdiv (n * 1000) r := by
  unfold block_duration_ms
  rw [c_int_of_range (n * 1000) (by omega) h1, Int.tdiv_eq_ediv h0 hr]
  have hnn := Int.ediv_nonneg h0 hr
  have hle := Int.ediv_le_self r h0
  exact c_int_of_range _ (by omega) (by omega)

/-- Outside that range the product wraps: for a block of 2147484 samples at
8000 Hz the code computes a negative duration. -/
lemma block_duration_ms_overflow : block_duration_ms 2147484 8000 = -268435 := by
  decide

/-- A call of `volume_echo_avoider_process` with the peer at or below the
threshold: with `sustain_dur` positive it only counts `sustain_dur` down,
otherwise it only resets `target_gain` to `static_gain`. -/
lemma echo_avoider_quiet (v : Volume) (peer_e : ℚ) (om : mblk_t) (c : Int)
    (hq : peer_e ≤ v.ea_thres) :
    (volume_echo_avoider_process v peer_e om c).vol =
      if v.sustain_dur > 0 then
        { v with sustain_dur :=
            c_int (v.sustain_dur - block_duration_ms (msg_nsamples om) v.sample_rate) }
      else { v with target_gain := v.static_gain } := by
  have h : ¬ peer_e > v.ea_thres := not_lt.mpr hq
  simp only [volume_echo_avoider_process, if_neg h]

/-- A run of quiet calls on blocks of `n` samples, `d` ms each: the target
gain is kept while the sustain time lasts and is `static_gain` afterwards. -/
lemma echo_avoider_run_quiet (n d : Int) (hd : 1 ≤ d) (hdmax : d ≤ 2147483647) :
    ∀ (calls : List (ℚ × mblk_t)) (v : Volume) (c : Int),
      (∀ p ∈ calls, p.1 ≤ v.ea_thres ∧ msg_nsamples p.2 = n) →
      d = block_duration_ms n v.sample_rate →
      v.sustain_dur ≤ 2147483647 →
      (((calls.length : Int) * d < v.sustain_dur + d →
          (echo_avoider_run v c calls).target_gain = v.target_gain) ∧
       (calls ≠ [] → v.sustain_dur + d ≤ (calls.length : Int) * d →
          (echo_avoider_run v c calls).target_gain = v.static_gain)) := by
  intro calls
  induction calls with
  | nil =>
    intro v c _ _ _
    exact ⟨fun _ => rfl, fun h => absurd rfl h⟩
  | cons p rest ih =>
    intro v c hq hdv hmax
    obtain ⟨pe, om⟩ := p
    have hp := hq (pe, om) (List.mem_cons_self _ _)
    have hstep := echo_avoider_quiet v pe om c hp.1
    simp only [echo_avoider_run]
    rw [hstep, hp.2, ← hdv]
    have hlen : (((pe, om) :: rest).length : Int) = (rest.length : Int) + 1 := by
      simp
    rw [hlen]
    by_cases hs : v.sustain_dur > 0
    · rw [if_pos hs, c_int_of_range (v.sustain_dur - d) (by omega) (by omega)]
      have hq' : ∀ q ∈ rest, q.1 ≤ ({ v with sustain_dur := v.sustain_dur - d } : Volume).ea_thres
          ∧ msg_nsamples q.2 = n := fun q hqm => hq q (List.mem_cons_of_mem _ hqm)
      have ih' := ih { v with sustain_dur := v.sustain_dur - d }
        (volume_echo_avoider_process v pe om c).counter hq' hdv (by simp only; omega)
      constructor
      · intro hlt
        have := ih'.1 (by simp only; linarith)
        simpa using this
      · intro _ hge
        by_cases hr : rest = []
        · subst hr
          simp at hge
          omega
        · have := ih'.2 hr (by simp only; linarith)
          simpa using this
    · rw [if_neg hs]
      have hq' : ∀ q ∈ rest, q.1 ≤ ({ v with target_gain := v.static_gain } : Volume).ea_thres
          ∧ msg_nsamples q.2 = n := fun q hqm => hq q (List.mem_cons_of_mem _ hqm)
      have ih' := ih { v with target_gain := v.static_gain }
        (volume_echo_avoider_process v pe om c).counter hq' hdv hmax
      have hnn : (0 : Int) ≤ (rest.length : Int) := Int.natCast_nonneg _
      constructor
      · intro hlt
        exfalso
        have hm : 0 ≤ (rest.length : Int) * d := mul_nonneg hnn (by omega)
        have he : ((rest.length : Int) + 1) * d = (rest.length : Int) * d + d := by ring
        rw [he] at hlt
        have hs' : v.sustain_dur ≤ 0 := not_lt.mp hs
        linarith
      · intro _ _
        by_cases hr : rest = []
        · subst hr
          rfl
        · have hpos : (1 : Int) ≤ (rest.length : Int) := by
            have : 0 < rest.length := List.length_pos.mpr hr
            omega
          have hm : d ≤ (rest.length : Int) * d :=
            le_mul_of_one_le_left (by omega) hpos
          have hs' : v.sustain_dur ≤ 0 := not_lt.mp hs
          have := ih'.2 hr (by simp only; linarith)
          simpa using this

/-- C6: after a call of `volume_echo_avoider_process` with the peer above
`ea_thres` (which sets `target_gain` to `compute_gain` of the peer energy and
`sustain_dur` to `sustain_time`), in a following run of calls with the peer at
or below `ea_thres` on blocks of one size, with `d` the value of the `int`
expression `(nsamples*1000)/sample_rate` at least 1 and `sustain_time` a
non-negative `int`, `target_gain` is left unchanged during the first
`⌈sustain_time / d⌉` calls and is `static_gain` from the next call on.  Where
`nsamples*1000` is inside the `int` range, `d` is the quotient on `ℤ`. -/
theorem echo_limiter_sustain (v : Volume) (peer_e : ℚ) (om : mblk_t) (c : Int)
    (calls : List (ℚ × mblk_t)) (n : Int)
    (hloud : v.ea_thres < peer_e)
    (hquiet : ∀ p ∈ calls, p.1 ≤ v.ea_thres ∧ msg_nsamples p.2 = n)
    (hd : 1 ≤ block_duration_ms n v.sample_rate)
    (hs : 0 ≤ v.sustain_time) (hsmax : v.sustain_time ≤ 2147483647) :
    (volume_echo_avoider_process v peer_e om c).vol.target_gain
      = compute_gain v peer_e v.force ∧
    (volume_echo_avoider_process v peer_e om c).vol.sustain_dur = v.sustain_time ∧
    ((calls.length : Int)
        ≤ ⌈(v.sustain_time : ℚ) / ((block_duration_ms n v.sample_rate : Int) : ℚ)⌉ →
      (echo_avoider_run (volume_echo_avoider_process v peer_e om c).vol
        (volume_echo_avoider_process v peer_e om c).counter calls).target_gain
        = (volume_echo_avoider_process v peer_e om c).vol.target_gain) ∧
    (⌈(v.sustain_time : ℚ) / ((block_duration_ms n v.sample_rate : Int) : ℚ)⌉
        < (calls.length : Int) →
      (echo_avoider_run (volume_echo_avoider_process v peer_e om c).vol
        (volume_echo_avoider_process v peer_e om c).counter calls).target_gain
        = v.static_gain) ∧
    (0 ≤ n * 1000 → n * 1000 ≤ 2147483647 → 0 ≤ v.sample_rate →
      block_duration_ms n v.sample_rate = Int.tdiv (n * 1000) v.sample_rate) := by
  have hv1 : (volume_echo_avoider_process v peer_e om c).vol =
      { v with target_gain := compute_gain v peer_e v.force
               sustain_dur := v.sustain_time } := by
    simp only [volume_echo_avoider_process, gt_iff_lt, if_pos hloud]
  set d := block_duration_ms n v.sample_rate with hdd
  have hdmax : d ≤ 2147483647 := (c_int_range _).2
  have hdq : (0 : ℚ) < (d : ℚ) := by exact_mod_cast (by omega : (0 : Int) < d)
  rw [hv1]
  have hrun := echo_avoider_run_quiet n d hd hdmax calls
    { v with target_gain := compute_gain v peer_e v.force
             sustain_dur := v.sustain_time }
    (volume_echo_avoider_process v peer_e om c).counter hquiet hdd hsmax
  refine ⟨rfl, rfl, ?_, ?_, block_duration_ms_of_range n v.sample_rate⟩
  · intro hle
    have h1 : (calls.length : Int) - 1 < ⌈(v.sustain_time : ℚ) / (d : ℚ)⌉ := by omega
    rw [Int.lt_ceil, lt_div_iff₀ hdq] at h1
    have h2 : ((calls.length : Int) - 1) * d < v.sustain_time := by exact_mod_cast h1
    exact hrun.1 (by simp only; linarith)
  · intro hlt
    have hN : (0 : Int) ≤ ⌈(v.sustain_time : ℚ) / (d : ℚ)⌉ :=
      Int.ceil_nonneg (div_nonneg (by exact_mod_cast hs) hdq.le)
    have hne : calls ≠ [] := by
      intro h
      subst h
      simp at hlt
      omega
    have h1 : ⌈(v.sustain_time : ℚ) / (d : ℚ)⌉ ≤ (calls.length : Int) - 1 := by omega
    rw [Int.ceil_le, div_le_iff₀ hdq] at h1
    have h2 : v.sustain_time ≤ ((calls.length : Int) - 1) * d := by exact_mod_cast h1
    exact hrun.2 hne (by simp only; linarith)

/-- The sustain of the default state with a peer set (`sustain_time` 200,
8000 Hz) on blocks of 80 samples (10 ms): the target gain set by a loud peer
is still there after 20 quiet calls and is back to `static_gain` after 21. -/
theorem echo_limiter_sustain_witness :
    (echo_avoider_run (volume_echo_avoider_process volume_init_peer 1 [] 0).vol
        (volume_echo_avoider_process volume_init_peer 1 [] 0).counter
        (List.replicate 20 ((0 : ℚ), List.replicate 80 (0 : Int)))).target_gain
      = (volume_echo_avoider_process volume_init_peer 1 [] 0).vol.target_gain ∧
    (echo_avoider_run (volume_echo_avoider_process volume_init_peer 1 [] 0).vol
        (volume_echo_avoider_process volume_init_peer 1 [] 0).counter
        (List.replicate 21 ((0 : ℚ), List.replicate 80 (0 : Int)))).target_gain
      = volume_init_peer.static_gain := by
  have hthr : volume_init_peer.ea_thres < 1 := by
    norm_num [volume_init_peer, volume_init, noise_thres]
  have hq : ∀ k : Nat, ∀ p ∈ List.replicate k ((0 : ℚ), List.replicate 80 (0 : Int)),
      p.1 ≤ volume_init_peer.ea_thres ∧ msg_nsamples p.2 = 80 := by
    intro k p hp
    rw [List.eq_of_mem_replicate hp]
    constructor
    · norm_num [volume_init_peer, volume_init, noise_thres]
    · simp only [msg_nsamples, msg_bytes, List.length_replicate]
      decide
  have e2 : block_duration_ms 80 volume_init_peer.sample_rate = 10 := by decide
  have hceil : (⌈((volume_init_peer.sustain_time : Int) : ℚ)
      / ((block_duration_ms 80 volume_init_peer.sample_rate : Int) : ℚ)⌉ : Int) = 20 := by
    have e1 : volume_init_peer.sustain_time = 200 := rfl
    rw [e1, e2]
    norm_num
  constructor
  · refine (echo_limiter_sustain volume_init_peer 1 [] 0 _ 80 hthr (hq 20) (by rw [e2]; decide)
      (by decide) (by decide)).2.2.1 ?_
    rw [hceil]
    simp
  · refine (echo_limiter_sustain volume_init_peer 1 [] 0 _ 80 hthr (hq 21) (by rw [e2]; decide)
      (by decide) (by decide)).2.2.2.1 ?_
    rw [hceil]
    simp

/-! ## Gain ramps -/

/-- The function `apply_gain` leaves in `v->gain` the ramped gain. -/
lemma apply_gain_gain (v : Volume) (m : mblk_t) (tgain : ℚ) :
    (apply_gain v m tgain).1.gain = ramp_gain v tgain := rfl

/-- Downward ramp: one factor `1 - vol_downramp`, not below the target. -/
lemma ramp_gain_down (v : Volume) (tgain : ℚ) (h : tgain < v.gain) :
    ramp_gain v tgain = max tgain (v.gain * (1 - v.vol_downramp)) := by
  unfold ramp_gain
  rw [if_neg (not_lt.mpr h.le), if_pos h]
  by_cases hc : v.gain * (1 - v.vol_downramp) < tgain
  · simp only [if_pos hc]
    exact (max_eq_left hc.le).symm
  · simp only [if_neg hc]
    exact (max_eq_right (not_lt.mp hc)).symm

/-- Upward ramp: one factor `1 + vol_upramp`, not above the target. -/
lemma ramp_gain_up (v : Volume) (tgain : ℚ) (h : v.gain < tgain) :
    ramp_gain v tgain = min tgain (v.gain * (1 + v.vol_upramp)) := by
  unfold ramp_gain
  rw [if_pos h]
  by_cases hc : v.gain * (1 + v.vol_upramp) > tgain
  · simp only [if_pos hc]
    exact (min_eq_left (le_of_lt hc)).symm
  · simp only [if_neg hc]
    exact (min_eq_right (not_lt.mp hc)).symm

/-- The ramp reads `gain`, `vol_upramp` and `vol_downramp` only. -/
lemma ramp_gain_congr (v w : Volume) (tgain : ℚ) (hg : v.gain = w.gain)
    (hu : v.vol_upramp = w.vol_upramp) (hd : v.vol_downramp = w.vol_downramp) :
    ramp_gain v tgain = ramp_gain w tgain := by
  unfold ramp_gain
  rw [hg, hu, hd]

/-- The function `volume_noise_gate_process` leaves `gain` and the ramp factors alone. -/
lemma noise_gate_keeps_ramp (v : Volume) (energy : ℚ) (om : mblk_t) (c : Int) :
    (volume_noise_gate_process v energy om c).vol.gain = v.gain ∧
    (volume_noise_gate_process v energy om c).vol.vol_upramp = v.vol_upramp ∧
    (volume_noise_gate_process v energy om c).vol.vol_downramp = v.vol_downramp := by
  simp only [volume_noise_gate_process]
  split_ifs <;> exact ⟨rfl, rfl, rfl⟩

/-- What one turn of the light branch of `volume_process` leaves in `v->gain`
when a peer is set and its energy is above the threshold: the gain of the
state before, ramped towards `compute_gain` of the peer energy. -/
lemma light_block_gain_loud (sqrt : ℚ → ℚ) (v : Volume) (peer_e : ℚ) (m : mblk_t)
    (c : Counters) (hpeer : v.peer.isSome = true) (hloud : v.ea_thres < peer_e) :
    (volume_process_light_block sqrt v peer_e m c).1.gain
      = ramp_gain v (compute_gain v peer_e v.force) := by
  have hpeer1 : (update_energy sqrt m (msg_nsamples m) v).peer.isSome = true := hpeer
  have hloud1 : peer_e > (update_energy sqrt m (msg_nsamples m) v).ea_thres := hloud
  simp only [volume_process_light_block, hpeer1, if_true, apply_gain_gain]
  simp only [volume_echo_avoider_process, if_pos hloud1]
  by_cases hng : (update_energy sqrt m (msg_nsamples m) v).noise_gate_enabled = true
  · simp only [hng, if_true]
    obtain ⟨h1, h2, h3⟩ := noise_gate_keeps_ramp
      { update_energy sqrt m (msg_nsamples m) v with
        target_gain := compute_gain (update_energy sqrt m (msg_nsamples m) v) peer_e
          (update_energy sqrt m (msg_nsamples m) v).force
        sustain_dur := (update_energy sqrt m (msg_nsamples m) v).sustain_time
        noise_gate_enabled := true }
      (update_energy sqrt m (msg_nsamples m) v).level_pk m c.noise_gate
    exact ramp_gain_congr _ v _ h1 h2 h3
  · simp only [hng]
    rfl

/-- What one turn of the AGC branch of `volume_process` leaves in `v->gain`
when a peer is set and its energy is above the threshold: the gain of the
state before, ramped towards `compute_gain` of the peer energy divided by the
gain reduction of `volume_agc_process`. -/
lemma agc_block_gain_loud (sqrt : ℚ → ℚ) (v : Volume) (peer_e : ℚ) (om : mblk_t)
    (c : Counters) (hpeer : v.peer.isSome = true) (hloud : v.ea_thres < peer_e) :
    (volume_process_agc_block sqrt v peer_e om c).1.gain
      = ramp_gain v (compute_gain v peer_e v.force
          / (1 + (update_energy sqrt om v.nsamples v).level_pk * 2 * v.static_gain)) := by
  have hpeer1 : (update_energy sqrt om v.nsamples v).peer.isSome = true := hpeer
  have hloud1 : peer_e > (update_energy sqrt om v.nsamples v).ea_thres := hloud
  simp only [volume_process_agc_block, hpeer1, if_true, apply_gain_gain]
  simp only [volume_echo_avoider_process, if_pos hloud1, volume_agc_process]
  by_cases hng : (update_energy sqrt om v.nsamples v).noise_gate_enabled = true
  · simp only [hng, if_true]
    obtain ⟨h1, h2, h3⟩ := noise_gate_keeps_ramp
      { update_energy sqrt om v.nsamples v with
        target_gain := compute_gain (update_energy sqrt om v.nsamples v) peer_e
          (update_energy sqrt om v.nsamples v).force
        sustain_dur := (update_energy sqrt om v.nsamples v).sustain_time
        noise_gate_enabled := true }
      (update_energy sqrt om v.nsamples v).level_pk om c.noise_gate
    exact ramp_gain_congr _ v _ h1 h2 h3
  · simp only [hng]
    rfl

/-- C7 as stated fails: from the state of `volume_init` with a peer set (gain
1, threshold 0.1, force 4) and a peer energy of 1, the new target gain is 1/5,
below the current gain 1, but the gain `apply_gain` leaves for that block is
3/5, also through `volume_process` (AGC not enabled). -/
theorem echo_gain_drop_not_immediate :
    ({ volume_init with peer := some 0 } : Volume).ea_thres < 1 ∧
    (volume_echo_avoider_process { volume_init with peer := some 0 } 1 [0] 0).ret = 1 / 5 ∧
    (volume_echo_avoider_process { volume_init with peer := some 0 } 1 [0] 0).ret
      < ({ volume_init with peer := some 0 } : Volume).gain ∧
    (apply_gain (volume_echo_avoider_process { volume_init with peer := some 0 } 1 [0] 0).vol
      [0] (volume_echo_avoider_process { volume_init with peer := some 0 } 1 [0] 0).ret).1.gain
      = 3 / 5 ∧
    (volume_process_light_block (fun x => x) { volume_init with peer := some 0 } 1 [0]
      { agc := 0, echo := 0, noise_gate := 0 }).1.gain = 3 / 5 ∧
    (volume_process_block (fun x => x) { volume_init with peer := some 0 } 1 [0]
      { agc := 0, echo := 0, noise_gate := 0 }).1.gain = 3 / 5 := by
  have hthr : ({ volume_init with peer := some 0 } : Volume).ea_thres < 1 := by
    norm_num [volume_init, noise_thres]
  have hret : (volume_echo_avoider_process { volume_init with peer := some 0 } 1 [0] 0).ret
      = 1 / 5 := by
    simp only [volume_echo_avoider_process, gt_iff_lt, if_pos hthr]
    norm_num [compute_gain, volume_init, en_weight]
  have hramp : ramp_gain { volume_init with peer := some 0 } (1 / 5) = 3 / 5 := by
    norm_num [ramp_gain, volume_init, vol_downramp, vol_upramp]
  have hcg : compute_gain { volume_init with peer := some 0 } 1
      ({ volume_init with peer := some 0 } : Volume).force = 1 / 5 := by
    norm_num [compute_gain, volume_init, en_weight]
  have hlight : (volume_process_light_block (fun x => x) { volume_init with peer := some 0 }
      1 [0] { agc := 0, echo := 0, noise_gate := 0 }).1.gain = 3 / 5 := by
    rw [light_block_gain_loud (fun x => x) { volume_init with peer := some 0 } 1 [0]
      { agc := 0, echo := 0, noise_gate := 0 } rfl hthr, hcg]
    exact hramp
  have hb : volume_process_block (fun x => x) { volume_init with peer := some 0 } 1 [0]
      { agc := 0, echo := 0, noise_gate := 0 }
      = volume_process_light_block (fun x => x) { volume_init with peer := some 0 } 1 [0]
        { agc := 0, echo := 0, noise_gate := 0 } := by
    simp only [volume_process_block, volume_init, Bool.false_eq_true, if_false]
  refine ⟨hthr, hret, ?_, ?_, hlight, ?_⟩
  · rw [hret]
    norm_num [volume_init]
  · rw [apply_gain_gain, hret]
    simp only [volume_echo_avoider_process, gt_iff_lt, if_pos hthr]
    exact hramp
  · rw [hb]
    exact hlight

/-- C7 amended: `apply_gain` moves `v->gain` towards the target it is handed by
one ramp step per block in both directions.  When the target is below the
current gain the new gain is the larger of the target and
`gain * (1 - vol_downramp)`, so it equals the target only when that one step
reaches it; when the target is above the current gain the new gain is the
smaller of the target and `gain * (1 + vol_upramp)`, so it is at most
`gain * (1 + vol_upramp)`.  With a peer set, its energy above `ea_thres` and
`1 + peer_e * force` not zero, the target handed to `apply_gain` by one turn of
`volume_process` is `compute_gain` of that energy when `agc_enabled` is clear,
and `compute_gain` of that energy divided by the gain reduction
`1 + level_pk * 2 * static_gain` of `volume_agc_process` (not zero, `level_pk`
measured on the `nsamples > 0` samples of the block) when `agc_enabled` is
set. -/
theorem echo_gain_ramps (sqrt : ℚ → ℚ) (v : Volume) (peer_e tgain : ℚ) (m : mblk_t)
    (c : Counters) :
    (tgain < v.gain →
      (apply_gain v m tgain).1.gain = max tgain (v.gain * (1 - v.vol_downramp)) ∧
      ((apply_gain v m tgain).1.gain = tgain ↔ v.gain * (1 - v.vol_downramp) ≤ tgain)) ∧
    (v.gain < tgain →
      (apply_gain v m tgain).1.gain = min tgain (v.gain * (1 + v.vol_upramp)) ∧
      (apply_gain v m tgain).1.gain ≤ v.gain * (1 + v.vol_upramp)) ∧
    (v.peer.isSome = true → v.agc_enabled = false → v.ea_thres < peer_e →
      1 + peer_e * v.force ≠ 0 →
      (compute_gain v peer_e v.force < v.gain →
        (volume_process_block sqrt v peer_e m c).1.gain
          = max (compute_gain v peer_e v.force) (v.gain * (1 - v.vol_downramp))) ∧
      (v.gain < compute_gain v peer_e v.force →
        (volume_process_block sqrt v peer_e m c).1.gain
          = min (compute_gain v peer_e v.force) (v.gain * (1 + v.vol_upramp)))) ∧
    (v.peer.isSome = true → v.agc_enabled = true → 0 < v.nsamples → v.ea_thres < peer_e →
      1 + peer_e * v.force ≠ 0 →
      1 + (update_energy sqrt m v.nsamples v).level_pk * 2 * v.static_gain ≠ 0 →
      (compute_gain v peer_e v.force
          / (1 + (update_energy sqrt m v.nsamples v).level_pk * 2 * v.static_gain) < v.gain →
        (volume_process_block sqrt v peer_e m c).1.gain
          = max (compute_gain v peer_e v.force
              / (1 + (update_energy sqrt m v.nsamples v).level_pk * 2 * v.static_gain))
            (v.gain * (1 - v.vol_downramp))) ∧
      (v.gain < compute_gain v peer_e v.force
          / (1 + (update_energy sqrt m v.nsamples v).level_pk * 2 * v.static_gain) →
        (volume_process_block sqrt v peer_e m c).1.gain
          = min (compute_gain v peer_e v.force
              / (1 + (update_energy sqrt m v.nsamples v).level_pk * 2 * v.static_gain))
            (v.gain * (1 + v.vol_upramp)))) := by
  refine ⟨?_, ?_, ?_, ?_⟩
  · intro h
    rw [apply_gain_gain, ramp_gain_down v tgain h]
    exact ⟨rfl, max_eq_left_iff⟩
  · intro h
    rw [apply_gain_gain, ramp_gain_up v tgain h]
    exact ⟨rfl, min_le_right _ _⟩
  · intro hpeer hagc hloud _
    have hb : volume_process_block sqrt v peer_e m c
        = volume_process_light_block sqrt v peer_e m c := by
      simp only [volume_process_block, hagc, Bool.false_eq_true, if_false]
    rw [hb, light_block_gain_loud sqrt v peer_e m c hpeer hloud]
    exact ⟨fun hlt => ramp_gain_down v _ hlt, fun hgt => ramp_gain_up v _ hgt⟩
  · intro hpeer hagc _ hloud _ _
    have hb : volume_process_block sqrt v peer_e m c
        = volume_process_agc_block sqrt v peer_e m c := by
      simp only [volume_process_block, hagc, if_true]
    rw [hb, agc_block_gain_loud sqrt v peer_e m c hpeer hloud]
    exact ⟨fun hlt => ramp_gain_down v _ hlt, fun hgt => ramp_gain_up v _ hgt⟩

/-- The ramps at the state of `volume_init` with a peer set: a target of 1/5
under the gain 1 gives 3/5, a state with gain 1/2 rises by at most the factor
`1 + vol_upramp`, and a loud peer gives the stated gain in the light branch
and in the AGC branch. -/
theorem echo_gain_ramps_witness :
    (apply_gain volume_init_peer [0] (1 / 5)).1.gain
      = max (1 / 5) (volume_init_peer.gain * (1 - volume_init_peer.vol_downramp)) ∧
    (apply_gain { volume_init with gain := 1 / 2 } [0] 1).1.gain
      ≤ ({ volume_init with gain := 1 / 2 } : Volume).gain
          * (1 + ({ volume_init with gain := 1 / 2 } : Volume).vol_upramp) ∧
    (volume_process_block (fun x => x) volume_init_peer 1 [0]
        { agc := 0, echo := 0, noise_gate := 0 }).1.gain
      = max (compute_gain volume_init_peer 1 volume_init_peer.force)
          (volume_init_peer.gain * (1 - volume_init_peer.vol_downramp)) ∧
    (volume_process_block (fun _ => 0) volume_init_peer_agc 1 [0]
        { agc := 0, echo := 0, noise_gate := 0 }).1.gain
      = max (compute_gain volume_init_peer_agc 1 volume_init_peer_agc.force
          / (1 + (update_energy (fun _ => 0) [0] volume_init_peer_agc.nsamples
              volume_init_peer_agc).level_pk * 2 * volume_init_peer_agc.static_gain))
          (volume_init_peer_agc.gain * (1 - volume_init_peer_agc.vol_downramp)) := by
  have hcg : compute_gain volume_init_peer 1 volume_init_peer.force = 1 / 5 := by
    norm_num [compute_gain, volume_init_peer, volume_init, en_weight]
  have hcga : compute_gain volume_init_peer_agc 1 volume_init_peer_agc.force = 1 / 5 := by
    norm_num [compute_gain, volume_init_peer_agc, volume_init, en_weight]
  have hlv : (update_energy (fun _ => 0) [0] volume_init_peer_agc.nsamples
      volume_init_peer_agc).level_pk = 5 / 114688 := by
    norm_num [update_energy, max_e]
  have hsg : volume_init_peer_agc.static_gain = 1 := rfl
  refine ⟨?_, ?_, ?_, ?_⟩
  · exact ((echo_gain_ramps (fun x => x) volume_init_peer 1 (1 / 5) [0]
      { agc := 0, echo := 0, noise_gate := 0 }).1
      (by norm_num [volume_init_peer, volume_init])).1
  · exact ((echo_gain_ramps (fun x => x) { volume_init with gain := 1 / 2 } 1 1 [0]
      { agc := 0, echo := 0, noise_gate := 0 }).2.1
      (by norm_num [volume_init])).2
  · exact ((echo_gain_ramps (fun x => x) volume_init_peer 1 (1 / 5) [0]
      { agc := 0, echo := 0, noise_gate := 0 }).2.2.1 rfl rfl
      (by norm_num [volume_init_peer, volume_init, noise_thres])
      (by norm_num [volume_init_peer, volume_init, en_weight])).1
      (by rw [hcg]; norm_num [volume_init_peer, volume_init])
  · exact ((echo_gain_ramps (fun _ => 0) volume_init_peer_agc 1 (1 / 5) [0]
      { agc := 0, echo := 0, noise_gate := 0 }).2.2.2 rfl rfl (by decide)
      (by norm_num [volume_init_peer_agc, volume_init, noise_thres])
      (by norm_num [volume_init_peer_agc, volume_init, en_weight])
      (by rw [hlv, hsg]; norm_num)).1
      (by rw [hcga, hlv, hsg]; norm_num [volume_init_peer_agc, volume_init])

end MSVolume

namespace Vp8RtpFmt

/-! ## Extended sequence numbers -/

/-- A call on an initialised context with the raw value that follows the low
16 bits of the reference returns the reference plus one, in 32 bits. -/
lemma calc_extended_cseq_next (ctx : Vp8RtpFmtUnpackerCtx) (c : Nat)
    (hinit : ctx.initialized_ref_cseq = true)
    (hnext : c = (ctx.ref_cseq % 65536 + 1) % 65536) :
    vp8rtpfmt_unpacker_calc_extended_cseq ctx c
      = ((ctx.ref_cseq + 1) % 4294967296,
         { ctx with ref_cseq := (ctx.ref_cseq + 1) % 4294967296 }) := by
  have hd : signed16 (((c % 65536 : Nat) : Int) - ((ctx.ref_cseq % 65536 : Nat) : Int)) = 1 := by
    unfold signed16
    simp only
    split_ifs <;> omega
  have he : (((ctx.ref_cseq : Int) + 1) % 4294967296).toNat
      = (ctx.ref_cseq + 1) % 4294967296 := by omega
  simp only [vp8rtpfmt_unpacker_calc_extended_cseq, hinit, if_true, hd, he]

/-- The values returned on an initialised context for a run that continues the
reference. -/
lemma calc_run_initialized :
    ∀ (raws : List Nat) (ctx : Vp8RtpFmtUnpackerCtx),
      ctx.initialized_ref_cseq = true →
      (∀ r ∈ raws, r < 65536) →
      List.Chain (fun a b => b = (a + 1) % 65536) (ctx.ref_cseq % 65536) raws →
      (calc_extended_cseq_run ctx raws).1
        = (List.range raws.length).map (fun k => (ctx.ref_cseq + 1 + k) % 4294967296) := by
  intro raws
  induction raws with
  | nil => intro ctx _ _ _; rfl
  | cons c cs ih =>
    intro ctx hinit hlt hch
    rw [List.chain_cons] at hch
    have hc : c < 65536 := hlt c (List.mem_cons_self _ _)
    have hstep := calc_extended_cseq_next ctx c hinit hch.1
    have hch2 : List.Chain (fun a b => b = (a + 1) % 65536)
        (({ ctx with ref_cseq := (ctx.ref_cseq + 1) % 4294967296 } :
          Vp8RtpFmtUnpackerCtx).ref_cseq % 65536) cs := by
      have e : (ctx.ref_cseq + 1) % 4294967296 % 65536 = c := by omega
      simp only [e]
      exact hch.2
    have ih' := ih { ctx with ref_cseq := (ctx.ref_cseq + 1) % 4294967296 } hinit
      (fun r hr => hlt r (List.mem_cons_of_mem _ hr)) hch2
    simp only [calc_extended_cseq_run, hstep, ih', List.length_cons, List.range_succ_eq_map,
      List.map_cons, List.map_map]
    congr 1
    · apply List.map_congr_left
      intro k _
      simp only [Function.comp]
      omega

/-- The values returned on a fresh context for a consecutive run: the first raw
value plus the position, in 32 bits. -/
lemma calc_run_fresh (c : Nat) (cs : List Nat) (h : ConsecutiveRun (c :: cs)) :
    (calc_extended_cseq_run vp8rtpfmt_unpacker_init (c :: cs)).1
      = (List.range (cs.length + 1)).map (fun k => (c + k) % 4294967296) := by
  obtain ⟨hlt, hch⟩ := h
  have hc : c < 65536 := hlt c (List.mem_cons_self _ _)
  have hfirst : vp8rtpfmt_unpacker_calc_extended_cseq vp8rtpfmt_unpacker_init c
      = (c, { vp8rtpfmt_unpacker_init with ref_cseq := c, initialized_ref_cseq := true }) := by
    simp [vp8rtpfmt_unpacker_calc_extended_cseq, vp8rtpfmt_unpacker_init, Nat.mod_eq_of_lt hc]
  have hch2 : List.Chain (fun a b => b = (a + 1) % 65536)
      (({ vp8rtpfmt_unpacker_init with ref_cseq := c, initialized_ref_cseq := true } :
        Vp8RtpFmtUnpackerCtx).ref_cseq % 65536) cs := by
    simp only [Nat.mod_eq_of_lt hc]
    exact hch
  have hrest := calc_run_initialized cs
    { vp8rtpfmt_unpacker_init with ref_cseq := c, initialized_ref_cseq := true } rfl
    (fun r hr => hlt r (List.mem_cons_of_mem _ hr)) hch2
  simp only [calc_extended_cseq_run, hfirst, hrest, List.range_succ_eq_map, List.map_cons,
    List.map_map]
  congr 1
  · simp only [Nat.add_zero]
    omega
  · apply List.map_congr_left
    intro k _
    simp only [Function.comp]
    omega

/-- The run `consecutive_from start n` is a consecutive run. -/
lemma consecutive_from_run (start n : Nat) : ConsecutiveRun (consecutive_from start n) := by
  constructor
  · intro r hr
    simp only [consecutive_from, List.mem_map] at hr
    obtain ⟨k, _, rfl⟩ := hr
    exact Nat.mod_lt _ (by norm_num)
  · unfold consecutive_from
    rw [List.chain'_map]
    cases n with
    | zero => simp
    | succ m =>
      rw [List.chain'_range_succ]
      intro k _
      omega

/-- The first element of `consecutive_from` split off. -/
lemma consecutive_from_succ (start n : Nat) :
    consecutive_from start (n + 1) = start % 65536 :: consecutive_from (start + 1) n := by
  simp only [consecutive_from, List.range_succ_eq_map, List.map_cons, List.map_map,
    Nat.add_zero]
  congr 1
  apply List.map_congr_left
  intro k _
  simp only [Function.comp]
  omega

/-- C2 as stated fails: the tracker returns 32-bit values, so on the
consecutive run of 2^32 + 1 raw values that starts at 0 the value returned
last equals the value returned first. -/
theorem extended_cseq_not_increasing_on_long_run :
    ConsecutiveRun (consecutive_from 0 4294967297) ∧
    ¬ List.Pairwise (fun a b => a < b)
      (calc_extended_cseq_run vp8rtpfmt_unpacker_init (consecutive_from 0 4294967297)).1 := by
  refine ⟨consecutive_from_run 0 4294967297, ?_⟩
  have hrun := consecutive_from_run 0 4294967297
  have hsplit : consecutive_from 0 4294967297
      = 0 :: consecutive_from 1 4294967296 := consecutive_from_succ 0 4294967296
  rw [hsplit] at hrun ⊢
  rw [calc_run_fresh 0 _ hrun]
  have hlen : (consecutive_from 1 4294967296).length = 4294967296 := by
    simp only [consecutive_from, List.length_map, List.length_range]
  rw [hlen, List.pairwise_iff_getElem]
  intro h
  have h0 := h 0 4294967296 (by simp only [List.length_map, List.length_range]; omega)
    (by simp only [List.length_map, List.length_range]; omega) (by omega)
  simp only [List.getElem_map, List.getElem_range] at h0
  omega

/-- C2 amended: on a freshly initialised context, for every consecutive run of
raw 16-bit values whose first value plus length does not exceed 2^32, the
tracker returns the first raw value plus the position, hence a strictly
increasing sequence. -/
theorem extended_cseq_strictly_increasing (raws : List Nat) (h : ConsecutiveRun raws)
    (hbound : raws.headD 0 + raws.length ≤ 4294967296) :
    (calc_extended_cseq_run vp8rtpfmt_unpacker_init raws).1
      = (List.range raws.length).map (fun k => raws.headD 0 + k) ∧
    List.Pairwise (fun a b => a < b)
      (calc_extended_cseq_run vp8rtpfmt_unpacker_init raws).1 := by
  cases raws with
  | nil => exact ⟨rfl, List.Pairwise.nil⟩
  | cons c cs =>
    simp only [List.headD_cons, List.length_cons] at hbound
    have hval : (calc_extended_cseq_run vp8rtpfmt_unpacker_init (c :: cs)).1
        = (List.range (cs.length + 1)).map (fun k => c + k) := by
      rw [calc_run_fresh c cs h]
      apply List.map_congr_left
      intro k hk
      rw [List.mem_range] at hk
      exact Nat.mod_eq_of_lt (by omega)
    refine ⟨hval, ?_⟩
    rw [hval, List.pairwise_iff_getElem]
    intro i j hi hj hij
    simp only [List.getElem_map, List.getElem_range]
    omega

/-- The run of the specification, 65530 up to 65535 and then 0, 1, 2, gives
65530 up to 65538. -/
theorem extended_cseq_strictly_increasing_witness :
    (calc_extended_cseq_run vp8rtpfmt_unpacker_init
        [65530, 65531, 65532, 65533, 65534, 65535, 0, 1, 2]).1
      = [65530, 65531, 65532, 65533, 65534, 65535, 65536, 65537, 65538] ∧
    List.Pairwise (fun a b => a < b)
      (calc_extended_cseq_run vp8rtpfmt_unpacker_init
        [65530, 65531, 65532, 65533, 65534, 65535, 0, 1, 2]).1 :=
  extended_cseq_strictly_increasing [65530, 65531, 65532, 65533, 65534, 65535, 0, 1, 2]
    ⟨by decide, by simp⟩ (by decide)

/-! ## Payload descriptor decoding on short payloads -/

/-- Two memories that agree inside the buffer give the same reader. -/
lemma read_byte_congr (mem mem' : Nat → Nat) (len : Nat)
    (h : ∀ i, i < len → mem' i = mem i) : read_byte mem' len = read_byte mem len := by
  funext off
  unfold read_byte
  by_cases hoff : off < len
  · simp only [if_pos hoff, h off hoff]
  · simp only [if_neg hoff]

lemma read_byte_ok (mem : Nat → Nat) (len off : Nat) (h : off < len) :
    read_byte mem len off = .ok (mem off % 256) := by
  simp only [read_byte, if_pos h]

lemma read_byte_err (mem : Nat → Nat) (len off : Nat) (h : len ≤ off) :
    read_byte mem len off = .error .Vp8RtpFmtInvalidPayloadDescriptor := by
  simp only [read_byte, if_neg (not_lt.mpr h)]

/-- The picture id step either runs out of bytes or stops at an offset inside
the buffer. -/
lemma decode_pictureid_cases (mem : Nat → Nat) (len off : Nat) (i : Bool) (hoff : off ≤ len) :
    (len < off + pictureid_need mem len off i →
      decode_pictureid (read_byte mem len) i off = .error .Vp8RtpFmtInvalidPayloadDescriptor) ∧
    (off + pictureid_need mem len off i ≤ len →
      ∃ p, decode_pictureid (read_byte mem len) i off
        = .ok (p, off + pictureid_need mem len off i)) := by
  cases i with
  | false =>
    have hn : pictureid_need mem len off false = 0 := rfl
    rw [hn]
    constructor
    · intro h
      omega
    · intro _
      exact ⟨0, rfl⟩
  | true =>
    simp only [pictureid_need, if_true, decode_pictureid]
    by_cases h0 : len ≤ off
    · rw [read_byte_err mem len off h0]
      simp only [if_pos h0]
      constructor
      · intro _
        trivial
      · intro h
        omega
    · rw [read_byte_ok mem len off (by omega)]
      simp only [if_neg h0]
      by_cases hm : mem off % 256 / 128 % 2 = 1
      · simp only [if_pos hm]
        by_cases h1 : len ≤ off + 1
        · rw [read_byte_err mem len (off + 1) h1]
          constructor
          · intro _
            trivial
          · intro h
            omega
        · rw [read_byte_ok mem len (off + 1) (by omega)]
          constructor
          · intro h
            omega
          · intro _
            exact ⟨_, rfl⟩
      · simp only [if_neg hm]
        constructor
        · intro h
          omega
        · intro _
          exact ⟨_, rfl⟩

/-- The `tl0picidx` step either runs out of bytes or stops inside the buffer. -/
lemma decode_tl0picidx_cases (mem : Nat → Nat) (len off : Nat) (l : Bool) (hoff : off ≤ len) :
    (len < off + flag_bit l →
      decode_tl0picidx (read_byte mem len) l off = .error .Vp8RtpFmtInvalidPayloadDescriptor) ∧
    (off + flag_bit l ≤ len →
      ∃ p, decode_tl0picidx (read_byte mem len) l off = .ok (p, off + flag_bit l)) := by
  cases l with
  | false =>
    have hn : flag_bit false = 0 := rfl
    rw [hn]
    constructor
    · intro h
      omega
    · intro _
      exact ⟨0, rfl⟩
  | true =>
    have hn : flag_bit true = 1 := rfl
    rw [hn]
    simp only [decode_tl0picidx, if_true]
    by_cases h0 : len ≤ off
    · rw [read_byte_err mem len off h0]
      constructor
      · intro _
        trivial
      · intro h
        omega
    · rw [read_byte_ok mem len off (by omega)]
      constructor
      · intro h
        omega
      · intro _
        exact ⟨_, rfl⟩

/-- The `TID/Y/KEYIDX` step either runs out of bytes or stops inside the
buffer. -/
lemma decode_tid_keyidx_cases (mem : Nat → Nat) (len off : Nat) (t k : Bool)
    (hoff : off ≤ len) :
    (len < off + flag_bit (t || k) →
      decode_tid_keyidx (read_byte mem len) t k off
        = .error .Vp8RtpFmtInvalidPayloadDescriptor) ∧
    (off + flag_bit (t || k) ≤ len →
      ∃ p : Nat × Bool × Nat, decode_tid_keyidx (read_byte mem len) t k off
        = .ok (p.1, p.2.1, p.2.2, off + flag_bit (t || k))) := by
  by_cases htk : (t || k) = true
  · have hn : flag_bit (t || k) = 1 := by rw [htk]; rfl
    rw [hn]
    simp only [decode_tid_keyidx, htk, if_true]
    by_cases h0 : len ≤ off
    · rw [read_byte_err mem len off h0]
      constructor
      · intro _
        trivial
      · intro h
        omega
    · rw [read_byte_ok mem len off (by omega)]
      constructor
      · intro h
        omega
      · intro _
        exact ⟨(_, _, _), rfl⟩
  · have htk' : (t || k) = false := by simpa using htk
    have hn : flag_bit (t || k) = 0 := by rw [htk']; rfl
    rw [hn]
    simp only [decode_tid_keyidx, htk']
    constructor
    · intro h
      omega
    · intro _
      exact ⟨(0, false, 0), rfl⟩

/-- The implied length of a payload that holds both flag bytes. -/
lemma implied_length_ext (mem : Nat → Nat) (len : Nat) (h2 : 2 ≤ len)
    (hx : mem 0 % 256 / 128 % 2 = 1) :
    implied_length mem len
      = 2 + pictureid_need mem len 2 (decide (mem 1 % 256 / 128 % 2 = 1))
        + flag_bit (decide (mem 1 % 256 / 64 % 2 = 1))
        + flag_bit (decide (mem 1 % 256 / 32 % 2 = 1) || decide (mem 1 % 256 / 16 % 2 = 1)) := by
  have h0 : ¬ len < 1 := by omega
  have h1 : ¬ len < 2 := by omega
  simp only [implied_length, h0, h1, hx, if_true, if_false, pictureid_need, flag_bit,
    decide_eq_true_eq, Bool.or_eq_true]
  have e : len ≤ 2 ↔ len < 3 := by omega
  simp only [e]

/-- A payload shorter than its implied length is rejected. -/
lemma decode_short (strict : Bool) (mem : Nat → Nat) (len : Nat)
    (h : len < implied_length mem len) :
    decode strict mem len = .error .Vp8RtpFmtInvalidPayloadDescriptor := by
  simp only [decode, decode_with]
  by_cases h0 : len < 1
  · rw [read_byte_err mem len 0 (by omega)]
  · rw [read_byte_ok mem len 0 (by omega)]
    simp only
    by_cases hr0 : (strict && decide (mem 0 % 256 / 64 % 2 = 1)) = true
    · simp only [hr0, if_true]
    · rw [if_neg hr0]
      by_cases hx : mem 0 % 256 / 128 % 2 = 1
      · rw [if_pos hx]
        by_cases h1 : len < 2
        · rw [read_byte_err mem len 1 (by omega)]
        · rw [read_byte_ok mem len 1 (by omega)]
          simp only
          by_cases hr1 : (strict && decide (mem 1 % 256 % 16 ≠ 0)) = true
          · rw [if_pos hr1]
          · rw [if_neg hr1]
            rw [implied_length_ext mem len (by omega) hx] at h
            obtain ⟨hpe, hpo⟩ := decode_pictureid_cases mem len 2
              (decide (mem 1 % 256 / 128 % 2 = 1)) (by omega)
            by_cases hp : len < 2 + pictureid_need mem len 2 (decide (mem 1 % 256 / 128 % 2 = 1))
            · rw [hpe hp]
            · obtain ⟨p, hpv⟩ := hpo (by omega)
              rw [hpv]
              simp only
              obtain ⟨hle, hlo⟩ := decode_tl0picidx_cases mem len
                (2 + pictureid_need mem len 2 (decide (mem 1 % 256 / 128 % 2 = 1)))
                (decide (mem 1 % 256 / 64 % 2 = 1)) (by omega)
              by_cases hl : len < 2 + pictureid_need mem len 2 (decide (mem 1 % 256 / 128 % 2 = 1))
                  + flag_bit (decide (mem 1 % 256 / 64 % 2 = 1))
              · rw [hle hl]
              · obtain ⟨q, hqv⟩ := hlo (by omega)
                rw [hqv]
                simp only
                obtain ⟨hte, _⟩ := decode_tid_keyidx_cases mem len
                  (2 + pictureid_need mem len 2 (decide (mem 1 % 256 / 128 % 2 = 1))
                    + flag_bit (decide (mem 1 % 256 / 64 % 2 = 1)))
                  (decide (mem 1 % 256 / 32 % 2 = 1)) (decide (mem 1 % 256 / 16 % 2 = 1))
                  (by omega)
                rw [hte h]
      · exfalso
        have h0' : ¬ len < 1 := h0
        simp only [implied_length, h0', hx, if_false] at h

/-- In lenient mode a payload at least as long as its implied length is
decoded, and the bytes consumed are exactly the implied length. -/
lemma decode_long_enough (mem : Nat → Nat) (len : Nat) (h : implied_length mem len ≤ len) :
    ∃ d, decode false mem len = .ok (d, implied_length mem len) := by
  have h0 : ¬ len < 1 := by
    intro hlt
    simp only [implied_length, if_pos hlt] at h
    omega
  simp only [decode, decode_with]
  rw [read_byte_ok mem len 0 (by omega)]
  simp only [Bool.false_and, Bool.false_eq_true, if_false]
  by_cases hx : mem 0 % 256 / 128 % 2 = 1
  · rw [if_pos hx]
    have h1 : ¬ len < 2 := by
      intro hlt
      simp only [implied_length, if_neg h0, if_pos hx, if_pos hlt] at h
      omega
    rw [implied_length_ext mem len (by omega) hx] at h ⊢
    rw [read_byte_ok mem len 1 (by omega)]
    simp only
    obtain ⟨_, hpo⟩ := decode_pictureid_cases mem len 2
      (decide (mem 1 % 256 / 128 % 2 = 1)) (by omega)
    obtain ⟨p, hpv⟩ := hpo (by omega)
    rw [hpv]
    simp only
    obtain ⟨_, hlo⟩ := decode_tl0picidx_cases mem len
      (2 + pictureid_need mem len 2 (decide (mem 1 % 256 / 128 % 2 = 1)))
      (decide (mem 1 % 256 / 64 % 2 = 1)) (by omega)
    obtain ⟨q, hqv⟩ := hlo (by omega)
    rw [hqv]
    simp only
    obtain ⟨_, hto⟩ := decode_tid_keyidx_cases mem len
      (2 + pictureid_need mem len 2 (decide (mem 1 % 256 / 128 % 2 = 1))
        + flag_bit (decide (mem 1 % 256 / 64 % 2 = 1)))
      (decide (mem 1 % 256 / 32 % 2 = 1)) (decide (mem 1 % 256 / 16 % 2 = 1)) (by omega)
    obtain ⟨r, hrv⟩ := hto h
    rw [hrv]
    exact ⟨_, rfl⟩
  · rw [if_neg hx]
    have hi : implied_length mem len = 1 := by
      simp only [implied_length, if_neg h0, if_neg hx]
    rw [hi]
    exact ⟨_, rfl⟩

/-- C3: a payload shorter than the length its flag bits imply, in particular
one whose first byte has the `X` bit set and which is fewer than 2 bytes long,
is decoded to `Vp8RtpFmtInvalidPayloadDescriptor`, and the result of decoding
never depends on what lies beyond the buffer. -/
theorem decode_short_payload_invalid (strict : Bool) (mem : Nat → Nat) (len : Nat) :
    (len < implied_length mem len →
      decode strict mem len = .error .Vp8RtpFmtInvalidPayloadDescriptor) ∧
    (mem 0 % 256 / 128 % 2 = 1 → len < 2 →
      decode strict mem len = .error .Vp8RtpFmtInvalidPayloadDescriptor) ∧
    (∀ mem' : Nat → Nat, (∀ i, i < len → mem' i = mem i) →
      decode strict mem' len = decode strict mem len) := by
  refine ⟨decode_short strict mem len, ?_, ?_⟩
  · intro hx h2
    apply decode_short
    unfold implied_length
    by_cases h0 : len < 1
    · simp only [h0, if_true]
    · simp only [h0, if_false, hx, if_true, h2]
  · intro mem' hagree
    unfold decode
    rw [read_byte_congr mem mem' len hagree]

/-- A one-byte payload whose byte is `0x80` (`X` set) is rejected, whatever
follows the buffer in memory. -/
theorem decode_short_payload_invalid_witness :
    decode false (fun _ => 128) 1 = .error .Vp8RtpFmtInvalidPayloadDescriptor ∧
    decode true (fun i => if i = 0 then 128 else 255) 1
      = .error .Vp8RtpFmtInvalidPayloadDescriptor :=
  ⟨(decode_short_payload_invalid false (fun _ => 128) 1).2.1 (by decide) (by decide),
   (decode_short_payload_invalid true (fun i => if i = 0 then 128 else 255) 1).1 (by decide)⟩

/-! ## Round trip of the payload descriptor codec -/

/-- Byte 0 of `encode` and the bits `decode` reads back from it. -/
lemma byte0_bits (x n s : Bool) (pid : Nat) (hpid : pid < 16) :
    (128 * flag_bit x + 32 * flag_bit n + 16 * flag_bit s + pid % 16) % 256
      = 128 * flag_bit x + 32 * flag_bit n + 16 * flag_bit s + pid % 16 ∧
    decide ((128 * flag_bit x + 32 * flag_bit n + 16 * flag_bit s + pid % 16) / 128 % 2 = 1) = x ∧
    decide ((128 * flag_bit x + 32 * flag_bit n + 16 * flag_bit s + pid % 16) / 64 % 2 = 1) = false ∧
    decide ((128 * flag_bit x + 32 * flag_bit n + 16 * flag_bit s + pid % 16) / 32 % 2 = 1) = n ∧
    decide ((128 * flag_bit x + 32 * flag_bit n + 16 * flag_bit s + pid % 16) / 16 % 2 = 1) = s ∧
    (128 * flag_bit x + 32 * flag_bit n + 16 * flag_bit s + pid % 16) % 16 = pid := by
  cases x <;> cases n <;> cases s <;>
    simp only [flag_bit, if_true, Bool.false_eq_true, if_false, decide_eq_true_eq,
      decide_eq_false_iff_not] <;>
    omega

/-- The `TID/Y/KEYIDX` byte of `encode` and the fields `decode` reads back. -/
lemma tk_byte_bits (t k y : Bool) (tid keyidx : Nat) (htid : tid < 4) (hk : keyidx < 32)
    (zt : t = false → tid = 0 ∧ y = false) (zk : k = false → keyidx = 0) :
    (64 * (if t = true then tid % 4 else 0) + 32 * flag_bit (t && y)
        + (if k = true then keyidx % 32 else 0)) % 256
      = 64 * (if t = true then tid % 4 else 0) + 32 * flag_bit (t && y)
        + (if k = true then keyidx % 32 else 0) ∧
    (if t = true then
        (64 * (if t = true then tid % 4 else 0) + 32 * flag_bit (t && y)
          + (if k = true then keyidx % 32 else 0)) / 64 % 4 else 0) = tid ∧
    (t && decide ((64 * (if t = true then tid % 4 else 0) + 32 * flag_bit (t && y)
          + (if k = true then keyidx % 32 else 0)) / 32 % 2 = 1)) = y ∧
    (if k = true then
        (64 * (if t = true then tid % 4 else 0) + 32 * flag_bit (t && y)
          + (if k = true then keyidx % 32 else 0)) % 32 else 0) = keyidx := by
  cases t <;> cases k <;> cases y <;> simp [flag_bit] at zt zk ⊢ <;> omega

/-- Byte 1 of `encode` and the bits `decode` reads back from it. -/
lemma byte1_bits (i l t k : Bool) :
    (128 * flag_bit i + 64 * flag_bit l + 32 * flag_bit t + 16 * flag_bit k) % 256
      = 128 * flag_bit i + 64 * flag_bit l + 32 * flag_bit t + 16 * flag_bit k ∧
    decide ((128 * flag_bit i + 64 * flag_bit l + 32 * flag_bit t + 16 * flag_bit k)
      / 128 % 2 = 1) = i ∧
    decide ((128 * flag_bit i + 64 * flag_bit l + 32 * flag_bit t + 16 * flag_bit k)
      / 64 % 2 = 1) = l ∧
    decide ((128 * flag_bit i + 64 * flag_bit l + 32 * flag_bit t + 16 * flag_bit k)
      / 32 % 2 = 1) = t ∧
    decide ((128 * flag_bit i + 64 * flag_bit l + 32 * flag_bit t + 16 * flag_bit k)
      / 16 % 2 = 1) = k ∧
    decide ((128 * flag_bit i + 64 * flag_bit l + 32 * flag_bit t + 16 * flag_bit k)
      % 16 ≠ 0) = false := by
  cases i <;> cases l <;> cases t <;> cases k <;> decide

/-- Reading the byte that follows `pre` in a byte sequence. -/
lemma read_at (bs pre post : List Nat) (x off : Nat) (hbs : bs = pre ++ x :: post)
    (hoff : off = pre.length) :
    read_byte (mem_of bs) bs.length off = .ok (x % 256) := by
  subst hbs hoff
  have hlt : pre.length < (pre ++ x :: post).length := by
    rw [List.length_append, List.length_cons]
    omega
  have hget : (pre ++ x :: post).getD pre.length 0 = x := by
    rw [List.getD_eq_getElem?_getD, List.getElem?_append_right (le_refl _)]
    simp
  simp only [read_byte, mem_of, if_pos hlt, hget]

/-- The picture id step on the bytes `encode` wrote. -/
lemma stage_pictureid (bs pre post : List Nat) (i : Bool) (p off : Nat) (hp : p < 32768)
    (z : i = false → p = 0)
    (hbs : bs = pre ++ ((if i = true then encode_pictureid p else []) ++ post))
    (hoff : off = pre.length) :
    decode_pictureid (read_byte (mem_of bs) bs.length) i off
      = .ok (p, off + (if i = true then encode_pictureid p else []).length) := by
  cases i with
  | false =>
    rw [z rfl]
    rfl
  | true =>
    simp only [if_true] at hbs ⊢
    by_cases hs : p < 128
    · have he : encode_pictureid p = [p] := if_pos hs
      rw [he] at hbs ⊢
      have hr := read_at bs pre post p off (by rw [hbs]; rfl) hoff
      have hp1 : p % 256 = p := by omega
      have hp2 : ¬ p / 128 % 2 = 1 := by omega
      rw [hp1] at hr
      simp only [decode_pictureid, if_true, hr, if_neg hp2, List.length_singleton]
    · have he : encode_pictureid p = [128 + p / 256 % 128, p % 256] := if_neg hs
      rw [he] at hbs ⊢
      have hr0 := read_at bs pre (p % 256 :: post) (128 + p / 256 % 128) off
        (by rw [hbs]; rfl) hoff
      have hr1 := read_at bs (pre ++ [128 + p / 256 % 128]) post (p % 256) (off + 1)
        (by rw [hbs]; simp) (by rw [hoff]; simp)
      have q1 : (128 + p / 256 % 128) % 256 = 128 + p / 256 % 128 := by omega
      have q2 : (128 + p / 256 % 128) / 128 % 2 = 1 := by omega
      have q3 : (128 + p / 256 % 128) % 128 * 256 + p % 256 = p := by omega
      have q4 : p % 256 % 256 = p % 256 := by omega
      rw [q1] at hr0
      rw [q4] at hr1
      simp only [decode_pictureid, if_true, hr0, if_pos q2, hr1, q3, List.length_cons,
        List.length_nil]

/-- The `tl0picidx` step on the bytes `encode` wrote. -/
lemma stage_tl0picidx (bs pre post : List Nat) (l : Bool) (v off : Nat) (hv : v < 256)
    (z : l = false → v = 0)
    (hbs : bs = pre ++ ((if l = true then [v % 256] else []) ++ post))
    (hoff : off = pre.length) :
    decode_tl0picidx (read_byte (mem_of bs) bs.length) l off
      = .ok (v, off + (if l = true then [v % 256] else []).length) := by
  cases l with
  | false =>
    rw [z rfl]
    rfl
  | true =>
    simp only [if_true] at hbs ⊢
    have hr := read_at bs pre post (v % 256) off (by rw [hbs]; rfl) hoff
    have hv1 : v % 256 % 256 = v := by omega
    rw [hv1] at hr
    simp only [decode_tl0picidx, if_true, hr, List.length_singleton]

/-- The `TID/Y/KEYIDX` step on the bytes `encode` wrote. -/
lemma stage_tid_keyidx (bs pre : List Nat) (t k y : Bool) (tid keyidx off : Nat)
    (htid : tid < 4) (hk : keyidx < 32)
    (zt : t = false → tid = 0 ∧ y = false) (zk : k = false → keyidx = 0)
    (hbs : bs = pre ++ (if (t || k) = true then
      [64 * (if t = true then tid % 4 else 0) + 32 * flag_bit (t && y)
        + (if k = true then keyidx % 32 else 0)] else []))
    (hoff : off = pre.length) :
    decode_tid_keyidx (read_byte (mem_of bs) bs.length) t k off
      = .ok (tid, y, keyidx, off + (if (t || k) = true then
      [64 * (if t = true then tid % 4 else 0) + 32 * flag_bit (t && y)
        + (if k = true then keyidx % 32 else 0)] else []).length) := by
  obtain ⟨f0, ftid, fy, fk⟩ := tk_byte_bits t k y tid keyidx htid hk zt zk
  by_cases htk : (t || k) = true
  · simp only [htk, if_true] at hbs ⊢
    have hr := read_at bs pre [] _ off hbs hoff
    rw [f0] at hr
    simp only [decode_tid_keyidx, htk, if_true, hr, ftid, fy, fk, List.length_singleton]
  · have htk' : (t || k) = false := by simpa using htk
    have ht : t = false := by
      cases t
      · rfl
      · simp at htk'
    have hk' : k = false := by
      cases k
      · rfl
      · simp at htk'
    obtain ⟨z1, z2⟩ := zt ht
    have z3 := zk hk'
    subst ht hk' z1 z2 z3
    rfl

/-- The extension branch of `decode_with` when every step succeeds. -/
lemma decode_with_ext (strict : Bool) (rd : Reader) (b0 b1 p off1 tl off2 tid keyidx off3 : Nat)
    (y : Bool) (h0 : rd 0 = .ok b0) (hr0 : decide (b0 / 64 % 2 = 1) = false)
    (hx : b0 / 128 % 2 = 1) (h1 : rd 1 = .ok b1) (hr1 : decide (b1 % 16 ≠ 0) = false)
    (hp : decode_pictureid rd (decide (b1 / 128 % 2 = 1)) 2 = .ok (p, off1))
    (hl : decode_tl0picidx rd (decide (b1 / 64 % 2 = 1)) off1 = .ok (tl, off2))
    (ht : decode_tid_keyidx rd (decide (b1 / 32 % 2 = 1)) (decide (b1 / 16 % 2 = 1)) off2
      = .ok (tid, y, keyidx, off3)) :
    decode_with strict rd
      = .ok (⟨p, b0 % 16, tl, tid, keyidx, true, decide (b0 / 32 % 2 = 1),
          decide (b0 / 16 % 2 = 1), decide (b1 / 128 % 2 = 1), decide (b1 / 64 % 2 = 1),
          decide (b1 / 32 % 2 = 1), decide (b1 / 16 % 2 = 1), y⟩, off3) := by
  simp only [decode_with, h0, hr0, Bool.and_false, Bool.false_eq_true, if_false, if_pos hx, h1,
    hr1, hp, hl, ht]

/-- Round trip of a descriptor with the extension byte. -/
lemma roundtrip_ext (strict n s i l t k y : Bool) (pictureid pid tl0 tid keyidx : Nat)
    (hp : pictureid < 32768) (hpid : pid < 16) (htl : tl0 < 256) (htid : tid < 4)
    (hk : keyidx < 32) (z1 : i = false → pictureid = 0) (z2 : l = false → tl0 = 0)
    (z3 : t = false → tid = 0 ∧ y = false) (z4 : k = false → keyidx = 0) :
    decode_bytes strict
      (encode ⟨pictureid, pid, tl0, tid, keyidx, true, n, s, i, l, t, k, y⟩)
    = .ok (⟨pictureid, pid, tl0, tid, keyidx, true, n, s, i, l, t, k, y⟩,
      (encode ⟨pictureid, pid, tl0, tid, keyidx, true, n, s, i, l, t, k, y⟩).length) := by
  obtain ⟨e0, ex, er, en, es, epid⟩ := byte0_bits true n s pid hpid
  obtain ⟨g0, gi, gl, gt, gk, gr⟩ := byte1_bits i l t k
  have henc : encode ⟨pictureid, pid, tl0, tid, keyidx, true, n, s, i, l, t, k, y⟩
      = [128 * flag_bit true + 32 * flag_bit n + 16 * flag_bit s + pid % 16,
          128 * flag_bit i + 64 * flag_bit l + 32 * flag_bit t + 16 * flag_bit k]
        ++ (if i = true then encode_pictureid pictureid else [])
        ++ (if l = true then [tl0 % 256] else [])
        ++ (if (t || k) = true then
            [64 * (if t = true then tid % 4 else 0) + 32 * flag_bit (t && y)
              + (if k = true then keyidx % 32 else 0)] else []) := by
    simp only [encode, if_true]
  rw [henc]
  generalize 128 * flag_bit true + 32 * flag_bit n + 16 * flag_bit s + pid % 16 = b0 at *
  generalize 128 * flag_bit i + 64 * flag_bit l + 32 * flag_bit t + 16 * flag_bit k = b1 at *
  generalize hP : (if i = true then encode_pictureid pictureid else []) = P
  generalize hL : (if l = true then [tl0 % 256] else []) = L
  generalize hT : (if (t || k) = true then
            [64 * (if t = true then tid % 4 else 0) + 32 * flag_bit (t && y)
              + (if k = true then keyidx % 32 else 0)] else []) = T
  generalize hbs : [b0, b1] ++ P ++ L ++ T = bs
  have h0 := read_at bs [] (b1 :: (P ++ L ++ T)) b0 0 (by rw [← hbs]; simp) rfl
  have h1 := read_at bs [b0] (P ++ L ++ T) b1 1 (by rw [← hbs]; simp) rfl
  rw [e0] at h0
  rw [g0] at h1
  have sp := stage_pictureid bs [b0, b1] (L ++ T) i pictureid 2 hp z1
    (by rw [← hbs, hP]; simp) rfl
  have sl := stage_tl0picidx bs ([b0, b1] ++ P) T l tl0 (2 + P.length) htl z2
    (by rw [← hbs, hL]; simp) (by simp; omega)
  have st := stage_tid_keyidx bs ([b0, b1] ++ P ++ L) t k y tid keyidx
    (2 + P.length + L.length) htid hk z3 z4 (by rw [← hbs, hT]) (by simp; omega)
  rw [hP] at sp
  rw [hL] at sl
  rw [hT] at st
  rw [← gi] at sp
  rw [← gl] at sl
  rw [← gt, ← gk] at st
  have hx : b0 / 128 % 2 = 1 := of_decide_eq_true ex
  have hd := decode_with_ext strict (read_byte (mem_of bs) bs.length) b0 b1 pictureid
    (2 + P.length) tl0 (2 + P.length + L.length) tid keyidx
    (2 + P.length + L.length + T.length) y h0 er hx h1 gr sp sl st
  have hlen : bs.length = 2 + P.length + L.length + T.length := by
    rw [← hbs]
    simp only [List.length_append, List.length_cons, List.length_nil]
  simp only [decode_bytes, decode, hd]
  rw [hlen, en, es, epid, gi, gl, gt, gk]

/-- Round trip of a descriptor without the extension byte. -/
lemma roundtrip_plain (strict n s : Bool) (pid : Nat) (hpid : pid < 16) :
    decode_bytes strict
      (encode ⟨0, pid, 0, 0, 0, false, n, s, false, false, false, false, false⟩)
    = .ok (⟨0, pid, 0, 0, 0, false, n, s, false, false, false, false, false⟩,
      (encode ⟨0, pid, 0, 0, 0, false, n, s, false, false, false, false, false⟩).length) := by
  obtain ⟨e0, ex, er, en, es, epid⟩ := byte0_bits false n s pid hpid
  simp only [encode, Bool.false_eq_true, if_false]
  generalize 128 * flag_bit false + 32 * flag_bit n + 16 * flag_bit s + pid % 16 = b0 at *
  have ex' : ¬ b0 / 128 % 2 = 1 := of_decide_eq_false ex
  have er' : ¬ b0 / 64 % 2 = 1 := of_decide_eq_false er
  simp [decode_bytes, decode, decode_with, read_byte, mem_of, e0, ex', er', en, es, epid]

/-- C1 as stated fails: the descriptor with every flag clear and `pictureid`
1 is well-formed (no presence flag set, every field within its wire width),
but its picture id is not on the wire: it encodes to the single byte 0 and is
decoded with `pictureid` 0. -/
theorem roundtrip_loses_absent_pictureid :
    WellFormed d_absent_pictureid ∧
    encode d_absent_pictureid = [0] ∧
    decode_bytes false (encode d_absent_pictureid)
      = .ok ({ d_absent_pictureid with pictureid := 0 }, 1) ∧
    decode_bytes true (encode d_absent_pictureid)
      = .ok ({ d_absent_pictureid with pictureid := 0 }, 1) ∧
    (∀ strict n, decode_bytes strict (encode d_absent_pictureid)
      ≠ .ok (d_absent_pictureid, n)) := by
  refine ⟨by decide, rfl, rfl, rfl, ?_⟩
  intro strict n h
  cases strict
  · have h2 : decode_bytes false (encode d_absent_pictureid)
        = .ok ({ d_absent_pictureid with pictureid := 0 }, 1) := rfl
    rw [h2] at h
    injection h with h3
    injection h3 with h4 _
    have h5 := congrArg Vp8RtpFmtPayloadDescriptor.pictureid h4
    exact absurd h5 (by decide)
  · have h2 : decode_bytes true (encode d_absent_pictureid)
        = .ok ({ d_absent_pictureid with pictureid := 0 }, 1) := rfl
    rw [h2] at h
    injection h with h3
    injection h3 with h4 _
    have h5 := congrArg Vp8RtpFmtPayloadDescriptor.pictureid h4
    exact absurd h5 (by decide)

/-- The same loss for `layer_sync` without `tid_present`: the descriptor is
well-formed, encodes to the single byte 0 and is decoded with `layer_sync`
clear. -/
lemma roundtrip_loses_absent_layer_sync :
    WellFormed d_absent_layer_sync ∧
    encode d_absent_layer_sync = [0] ∧
    decode_bytes false (encode d_absent_layer_sync)
      = .ok ({ d_absent_layer_sync with layer_sync := false }, 1) :=
  ⟨by decide, rfl, rfl⟩

/-- C1 amended: for every well-formed payload descriptor whose fields that are
not on the wire are zero (a field with a clear presence flag is zero, and
`layer_sync` is set only with `tid_present`), decoding the bytes produced by
encoding it returns exactly that descriptor and consumes all the bytes, in
strict mode and in lenient mode. -/
theorem decode_encode_roundtrip (strict : Bool) (d : Vp8RtpFmtPayloadDescriptor)
    (hw : WellFormed d) (hz : AbsentFieldsZero d) :
    decode_bytes strict (encode d) = .ok (d, (encode d).length) := by
  obtain ⟨pictureid, pid, tl0, tid, keyidx, x, n, s, i, l, t, k, y⟩ := d
  obtain ⟨h1, h2, h3, h4, hp, hpid, htl, htid, hk⟩ := hw
  obtain ⟨z1, z2, z3, z4⟩ := hz
  simp only at h1 h2 h3 h4 hp hpid htl htid hk z1 z2 z3 z4
  cases x with
  | true =>
    exact roundtrip_ext strict n s i l t k y pictureid pid tl0 tid keyidx hp hpid htl htid hk
      z1 z2 z3 z4
  | false =>
    have hi : i = false := by
      cases i
      · rfl
      · exact absurd (h1 rfl) (by decide)
    have hl : l = false := by
      cases l
      · rfl
      · exact absurd (h2 rfl) (by decide)
    have ht : t = false := by
      cases t
      · rfl
      · exact absurd (h3 rfl) (by decide)
    have hk' : k = false := by
      cases k
      · rfl
      · exact absurd (h4 rfl) (by decide)
    subst hi hl ht hk'
    obtain ⟨z3a, z3b⟩ := z3 rfl
    have z1' := z1 rfl
    have z2' := z2 rfl
    have z4' := z4 rfl
    subst z1' z2' z3a z3b z4'
    exact roundtrip_plain strict n s pid hpid

/-- The round trip at a descriptor with every field present and a two-byte
picture id. -/
theorem decode_encode_roundtrip_witness :
    WellFormed d_full ∧ AbsentFieldsZero d_full ∧
    decode_bytes true (encode d_full) = .ok (d_full, 6) :=
  ⟨by decide, by decide, decode_encode_roundtrip true d_full (by decide) (by decide)⟩

end Vp8RtpFmt
